import Mathlib

/-!
Verification development for the facebook-scraper MCP subsystem:
the strategy orchestrator (adapter selection and fallback), the
resilience utilities (rate limiter, retry, TTL cache), the HTML
parser cascade, and the backend adapters.  Each TypeScript function
under scrutiny is shallowly embedded as an executable Lean
definition; JavaScript strings are modelled by `String`, millisecond
clock readings by `Int`, and `undefined`/`null` by `Option`.
-/

set_option maxRecDepth 8000
set_option linter.unusedVariables false

namespace FBS

/-! ## JavaScript string primitives

`jsIncludes`, `jsReplaceFirst` and `jsToLower` model
`String.prototype.includes`, the single-replacement form of
`String.prototype.replace` (string pattern: only the first
occurrence is replaced) and `String.prototype.toLowerCase`
(the inputs in this development are ASCII). -/

/-- `startsWithL pat s` : `pat` is an initial segment of `s`. -/
def startsWithL : List Char → List Char → Bool
  | [], _ => true
  | _ :: _, [] => false
  | p :: ps, c :: cs => p == c && startsWithL ps cs

/-- `containsL s pat` : `pat` occurs as a contiguous run inside `s`. -/
def containsL (s pat : List Char) : Bool :=
  if startsWithL pat s then true
  else
    match s with
    | [] => false
    | _ :: t => containsL t pat

/-- `String.prototype.includes`. -/
def jsIncludes (s pat : String) : Bool :=
  containsL s.toList pat.toList

/-- Replace the first occurrence of `pat` (if any) by `rep`. -/
def replaceFirstL (s pat rep : List Char) : List Char :=
  if startsWithL pat s then rep ++ s.drop pat.length
  else
    match s with
    | [] => []
    | c :: t => c :: replaceFirstL t pat rep

/-- `String.prototype.replace` with a plain-string pattern:
replaces only the first occurrence. -/
def jsReplaceFirst (s pat rep : String) : String :=
  ⟨replaceFirstL s.toList pat.toList rep.toList⟩

/-- `String.prototype.toLowerCase` on ASCII data. -/
def jsToLower (s : String) : String :=
  ⟨s.toList.map Char.toLower⟩

/-- JS whitespace for `trim` (the characters occurring in this code base). -/
def jsIsSpace (c : Char) : Bool :=
  c == ' ' || c == '\t' || c == '\n' || c == '\r'

/-- `String.prototype.trim`. -/
def jsTrim (s : String) : String :=
  ⟨((s.toList.dropWhile jsIsSpace).reverse.dropWhile jsIsSpace).reverse⟩

/-- `String.prototype.substring(0, n)`. -/
def jsSubstringTo (s : String) (n : Nat) : String :=
  ⟨s.toList.take n⟩

/-! ## Adapter data model (src types/adapters.ts) -/

/-- The fixed enumeration of backend names (`AdapterName`). -/
inductive AdapterName where
  | brightdata
  | firecrawl
  | playwrightMcp
  | standalone
deriving DecidableEq, Repr

/-- A `ScrapeResult` / `SearchResult` envelope, generic in the payload
carried by `data` (`FacebookPost[]`, `FacebookSearchResult`, ...);
`data = none` models `null`, `error = none` models an absent field. -/
structure Envelope (α : Type) where
  success : Bool
  data : Option α
  adapter_used : AdapterName
  error : Option String
deriving DecidableEq, Repr

/-- One invocation of an adapter method either throws (the promise
rejects) or returns an envelope. -/
inductive Outcome (α : Type) where
  | thrown (msg : String)
  | returned (r : Envelope α)
deriving DecidableEq, Repr

/-- `isFailure o` : the invocation did not produce a `success = true`
envelope (it threw, or returned `success:false`). -/
def isFailure {α : Type} : Outcome α → Bool
  | .thrown _ => true
  | .returned r => !r.success

/-- The orchestrator's adapter map, as populated by `initialize()`:
`none` means the name is not registered; `some o` gives the outcome
that invoking the registered adapter produces for the request at
hand (the request's url/query and options are fixed throughout a
single orchestrator call, so they are baked into the registry). -/
def Registry (α : Type) := AdapterName → Option (Outcome α)

/-- `options.strategy`: absent (`none`), `'auto'`, or a specific name. -/
inductive StrategyChoice where
  | auto
  | specific (n : AdapterName)
deriving DecidableEq, Repr

/-! ## StrategyOrchestrator (src/unnamed/part_003)

`autoLoop` embeds the `for (const adapterName of this.priorityOrder)`
loop shared verbatim by `scrape` and `search`: unregistered names are
skipped, a thrown invocation is caught and control advances, an
unsuccessful envelope advances, and the first `success = true`
envelope is returned at once.  Alongside the envelope the embedding
returns the trace of adapter names actually invoked, in order. -/

def autoLoop {α : Type} (failEnv : Envelope α) (reg : Registry α) :
    List AdapterName → Envelope α × List AdapterName
  | [] => (failEnv, [])
  | a :: rest =>
    match reg a with
    | none => autoLoop failEnv reg rest
    | some (.thrown _) =>
      let (res, tr) := autoLoop failEnv reg rest
      (res, a :: tr)
    | some (.returned r) =>
      if r.success then (r, [a])
      else
        let (res, tr) := autoLoop failEnv reg rest
        (res, a :: tr)

/-- The total-failure envelope of `scrape`. -/
def scrapeFailEnv {α : Type} : Envelope α :=
  ⟨false, none, .standalone, some "All adapters failed"⟩

/-- The total-failure envelope of `search`. -/
def searchFailEnv {α : Type} : Envelope α :=
  ⟨false, none, .standalone, some "All adapters failed for search"⟩

/-- Shared shape of `StrategyOrchestrator.scrape` / `.search`:
if `options.strategy` is present and not `'auto'`, look the name up;
when registered, return that single adapter's outcome directly (a
throw propagates: the override branch is outside the try/catch).
When the name is not registered, control falls through to the auto
loop.  Otherwise run the auto loop over the priority order. -/
def orchRun {α : Type} (failEnv : Envelope α) (reg : Registry α)
    (order : List AdapterName) (strat : Option StrategyChoice) :
    Outcome α × List AdapterName :=
  match strat with
  | some (.specific x) =>
    match reg x with
    | some o => (o, [x])
    | none =>
      let (r, tr) := autoLoop failEnv reg order
      (.returned r, tr)
  | _ =>
    let (r, tr) := autoLoop failEnv reg order
    (.returned r, tr)

/-- `StrategyOrchestrator.scrape` (post-`initialize` state given by
`reg`/`order`), returning the produced outcome and invocation trace. -/
def StrategyOrchestrator.scrape {α : Type} (reg : Registry α)
    (order : List AdapterName) (strat : Option StrategyChoice) :
    Outcome α × List AdapterName :=
  orchRun scrapeFailEnv reg order strat

/-- `StrategyOrchestrator.search`, identical state machine with the
search failure message. -/
def StrategyOrchestrator.search {α : Type} (reg : Registry α)
    (order : List AdapterName) (strat : Option StrategyChoice) :
    Outcome α × List AdapterName :=
  orchRun searchFailEnv reg order strat

/-- Two registries agree up to replacing throws by failure envelopes
when unregistered names coincide, successes coincide exactly, and
failing outcomes (thrown or `success:false`) correspond. -/
def outcomeEquiv {α : Type} : Option (Outcome α) → Option (Outcome α) → Prop
  | none, none => True
  | some o, some o' =>
      (isFailure o = true ∧ isFailure o' = true) ∨ o = o'
  | _, _ => False

/-- Concrete registry for witnesses: brightdata throws, standalone
succeeds with payload `7`, the rest unregistered. -/
def regW : Registry Nat := fun n =>
  match n with
  | .brightdata => some (.thrown "boom")
  | .standalone => some (.returned ⟨true, some 7, .standalone, none⟩)
  | _ => none

/-- Concrete registry for the C2 refutation: only standalone is
registered, and it succeeds. -/
def regW2 : Registry Nat := fun n =>
  match n with
  | .standalone => some (.returned ⟨true, some 5, .standalone, none⟩)
  | _ => none

/-! ## RateLimiter (src index.ts, class RateLimiter)

Timestamps and the clock (`Date.now()`) are milliseconds as `Int`.
The mutating `cleanup()` at the head of `getWaitTime` only drops
records older than one minute; every quantity computed afterwards
re-filters the list, so the embedding applies the same filters to the
stored list directly. -/

/-- The limiter's mutable state after construction: the two ceilings
fixed by the constructor (`requestsPerMinute` defaulting to
`requestsPerSecond * 60` when absent or `0`), the recorded request
timestamps, and `lastRequestTime` (initially `0`). -/
structure RateLimiterState where
  requestsPerSecond : Nat
  requestsPerMinute : Nat
  requests : List Int
  lastRequestTime : Int
deriving DecidableEq, Repr

/-- Ascending insertion of a timestamp, for `sort((a, b) => a - b)`. -/
def insertAsc (x : Int) : List Int → List Int
  | [] => [x]
  | y :: ys => if x ≤ y then x :: y :: ys else y :: insertAsc x ys

/-- `requests.sort((a, b) => a - b)` (ascending). -/
def sortAsc (l : List Int) : List Int :=
  l.foldr insertAsc []

/-- `this.requests.filter(...).sort((a, b) => a - b)[0]`: the oldest
timestamp of a window, `none` on an empty window. -/
def oldestOf (l : List Int) : Option Int :=
  (sortAsc l).head?

/-- `RateLimiter.getWaitTime()` at clock reading `now`: the per-second
check runs first and, when its count is at the ceiling and the window
is non-empty, returns immediately; otherwise the per-minute check;
otherwise the 500 ms minimum-spacing check; otherwise `0`. -/
def RateLimiter.getWaitTime (st : RateLimiterState) (now : Int) : Int :=
  let reqs := st.requests.filter (fun t => t > now - 60000)
  let perSecond := (reqs.filter (fun t => t > now - 1000)).length
  let perMinute := (reqs.filter (fun t => t > now - 60000)).length
  let minuteOn : Int :=
    if perMinute ≥ st.requestsPerMinute then
      match oldestOf (reqs.filter (fun t => t > now - 60000)) with
      | some oldest => max 0 (oldest + 60000 - now)
      | none =>
        if now - st.lastRequestTime < 500 then 500 - (now - st.lastRequestTime)
        else 0
    else
      if now - st.lastRequestTime < 500 then 500 - (now - st.lastRequestTime)
      else 0
  if perSecond ≥ st.requestsPerSecond then
    match oldestOf (reqs.filter (fun t => t > now - 1000)) with
    | some oldest => max 0 (oldest + 1000 - now)
    | none => minuteOn
  else minuteOn

/-- Modelled from the claim's words, for comparison with
`RateLimiter.getWaitTime`: the maximum of the three
constraint-implied waits — time until the oldest request of the
1-second window expires when the per-second count is at its ceiling,
time until the oldest request of the 60-second window expires when
the per-minute count is at its ceiling, and the remaining portion of
the 500 ms minimum spacing since the last recorded request. -/
def claimMaxWaitTime (st : RateLimiterState) (now : Int) : Int :=
  let secondWindow := st.requests.filter (fun t => t > now - 1000)
  let minuteWindow := st.requests.filter (fun t => t > now - 60000)
  let w1 : Int :=
    if secondWindow.length ≥ st.requestsPerSecond then
      match oldestOf secondWindow with
      | some oldest => max 0 (oldest + 1000 - now)
      | none => 0
    else 0
  let w2 : Int :=
    if minuteWindow.length ≥ st.requestsPerMinute then
      match oldestOf minuteWindow with
      | some oldest => max 0 (oldest + 60000 - now)
      | none => 0
    else 0
  let w3 : Int := max 0 (500 - (now - st.lastRequestTime))
  max w1 (max w2 w3)

/-! ## Retry with exponential backoff (src index.ts, retry utility) -/

/-- A JavaScript `Error` as far as `isRetryable` reads it. -/
structure JsError where
  message : String
  name : String
deriving DecidableEq, Repr

/-- Full `RetryOptions` (the delay knobs do not influence which value
is produced, only how long the sleeps are; they are kept for
faithfulness of the merge). -/
structure RetryOptions where
  maxRetries : Nat
  baseDelayMs : Nat
  maxDelayMs : Nat
  backoffMultiplier : Nat
  retryableErrors : Option (List String)
deriving DecidableEq, Repr

/-- The `DEFAULT_OPTIONS` of the retry utility. -/
def defaultRetryOptions : RetryOptions :=
  { maxRetries := 3
    baseDelayMs := 1000
    maxDelayMs := 30000
    backoffMultiplier := 2
    retryableErrors := some
      ["ECONNRESET", "ETIMEDOUT", "ECONNREFUSED", "ENOTFOUND",
       "EAI_AGAIN", "rate limit", "timeout",
       "429", "500", "502", "503", "504"] }

/-- A caller's partial options; `none` models an omitted field. -/
structure RetryOverrides where
  maxRetries : Option Nat := none
  baseDelayMs : Option Nat := none
  maxDelayMs : Option Nat := none
  backoffMultiplier : Option Nat := none
  retryableErrors : Option (List String) := none
deriving Repr

/-- `{ ...DEFAULT_OPTIONS, ...options }`. -/
def mergeRetryOptions (o : RetryOverrides) : RetryOptions :=
  { maxRetries := o.maxRetries.getD defaultRetryOptions.maxRetries
    baseDelayMs := o.baseDelayMs.getD defaultRetryOptions.baseDelayMs
    maxDelayMs := o.maxDelayMs.getD defaultRetryOptions.maxDelayMs
    backoffMultiplier :=
      o.backoffMultiplier.getD defaultRetryOptions.backoffMultiplier
    retryableErrors :=
      match o.retryableErrors with
      | some l => some l
      | none => defaultRetryOptions.retryableErrors }

/-- `isRetryable(error, options)`: the lowercased message or name
contains one of the retryable substrings (`?? false` when the
substring list is absent). -/
def isRetryable (e : JsError) (opts : RetryOptions) : Bool :=
  match opts.retryableErrors with
  | none => false
  | some l =>
    l.any fun r =>
      jsIncludes (jsToLower e.message) (jsToLower r) ||
      jsIncludes (jsToLower e.name) (jsToLower r)

/-- The `for (attempt = 0; attempt <= maxRetries; ...)` loop of
`withRetry`.  The operation is a function of the attempt index;
`fuel` counts the loop iterations still permitted (the final
`throw lastError || ...` after the loop is unreachable because the
`attempt >= maxRetries` guard throws inside the loop first).
Returns the outcome together with the number of attempts made. -/
def withRetryGo {α : Type} (f : Nat → Except JsError α)
    (maxRetries : Nat) (retryable : JsError → Bool) :
    Nat → Nat → Except JsError α × Nat
  | _, 0 => (.error ⟨"All retry attempts failed", "Error"⟩, 0)
  | attempt, fuel + 1 =>
    match f attempt with
    | .ok v => (.ok v, 1)
    | .error e =>
      if maxRetries ≤ attempt || !retryable e then (.error e, 1)
      else
        let (r, n) := withRetryGo f maxRetries retryable (attempt + 1) fuel
        (r, n + 1)

/-- `withRetry(fn, options)`: merge the options, then run the attempt
loop from attempt `0`. -/
def withRetry {α : Type} (f : Nat → Except JsError α)
    (o : RetryOverrides) : Except JsError α × Nat :=
  let opts := mergeRetryOptions o
  withRetryGo f opts.maxRetries (fun e => isRetryable e opts) 0
    (opts.maxRetries + 1)

/-! ## Cache (src/unnamed/part_002, class Cache) -/

/-- A cache entry: value, absolute expiry, creation time. -/
structure CacheEntry (α : Type) where
  value : α
  expiresAt : Int
  createdAt : Int
deriving DecidableEq, Repr

/-- A `Map`-backed cache with its configured policy.  The entry list
is kept in `Map` iteration order (insertion order, overwrites in
place). -/
structure Cache (α : Type) where
  entries : List (String × CacheEntry α)
  defaultTTLMs : Int
  maxEntries : Nat
deriving DecidableEq, Repr

/-- `Map.prototype.get`. -/
def mapGet {β : Type} : List (String × β) → String → Option β
  | [], _ => none
  | (k', v') :: rest, k => if k' == k then some v' else mapGet rest k

/-- `Map.prototype.set` (overwrite keeps the original position). -/
def mapSet {β : Type} : List (String × β) → String → β → List (String × β)
  | [], k, v => [(k, v)]
  | (k', v') :: rest, k, v =>
    if k' == k then (k', v) :: rest else (k', v') :: mapSet rest k v

/-- `Map.prototype.delete`. -/
def mapDelete {β : Type} (m : List (String × β)) (k : String) :
    List (String × β) :=
  m.filter (fun p => !(p.1 == k))

/-- Ascending insertion by `createdAt`, for
`sort((a, b) => a[1].createdAt - b[1].createdAt)`. -/
def insertByCreated {α : Type} (x : String × CacheEntry α) :
    List (String × CacheEntry α) → List (String × CacheEntry α)
  | [] => [x]
  | y :: ys =>
    if x.2.createdAt ≤ y.2.createdAt then x :: y :: ys
    else y :: insertByCreated x ys

/-- Sort entries by creation time (oldest first). -/
def sortByCreated {α : Type} (l : List (String × CacheEntry α)) :
    List (String × CacheEntry α) :=
  l.foldr insertByCreated []

/-- `Cache.cleanup()` at clock `now`: drop expired entries, then, if
still over `maxEntries`, drop the oldest-created entries down to the
cap. -/
def Cache.cleanup {α : Type} (c : Cache α) (now : Int) : Cache α :=
  let kept := c.entries.filter (fun p => !(p.2.expiresAt < now))
  if kept.length > c.maxEntries then
    let doomed :=
      ((sortByCreated kept).take (kept.length - c.maxEntries)).map (·.1)
    { c with entries := kept.filter (fun p => !(doomed.contains p.1)) }
  else
    { c with entries := kept }

/-- `Cache.get(key)` at clock `now`: a present entry whose expiry has
passed is deleted lazily and reported absent. -/
def Cache.get {α : Type} (c : Cache α) (k : String) (now : Int) :
    Option α × Cache α :=
  match mapGet c.entries k with
  | none => (none, c)
  | some e =>
    if e.expiresAt < now then (none, { c with entries := mapDelete c.entries k })
    else (some e.value, c)

/-- `Cache.set(key, value, ttlMs?)` at clock `now`.  `ttlMs || default`
is a falsy test: an absent or zero TTL falls back to the configured
default.  The eager cleanup fires when the size exceeds
`maxEntries * 1.2` (modelled by the exact rational comparison
`10 * size > 12 * maxEntries`; the claims below never reach it). -/
def Cache.set {α : Type} (c : Cache α) (k : String) (v : α)
    (ttlMs : Option Int) (now : Int) : Cache α :=
  let ttl : Int :=
    match ttlMs with
    | some t => if t = 0 then c.defaultTTLMs else t
    | none => c.defaultTTLMs
  let c' := { c with entries := mapSet c.entries k ⟨v, now + ttl, now⟩ }
  if 10 * c'.entries.length > 12 * c.maxEntries then Cache.cleanup c' now
  else c'

/-- The concrete cache of the C6 refutation (default TTL 5 minutes,
as configured by `DEFAULT_OPTIONS`). -/
def cacheW : Cache Nat := ⟨[], 300000, 1000⟩

/-- A retryable error: the message contains `ETIMEDOUT`. -/
def errTimeout : JsError := ⟨"Connection ETIMEDOUT", "Error"⟩

/-- A non-retryable error: `InvalidInput` matches no listed substring. -/
def errInvalid : JsError := ⟨"InvalidInput", "Error"⟩

/-- An operation that fails with `errTimeout` on every attempt. -/
def opAlwaysTimeout : Nat → Except JsError Nat := fun _ => .error errTimeout

/-- An operation that fails with `errInvalid` on every attempt. -/
def opInvalid : Nat → Except JsError Nat := fun _ => .error errInvalid

/-- `withRetry(fn)` with no options supplied. -/
def noOverrides : RetryOverrides := {}

/-! ## JSON values

Shared by the playwright-mcp adapter (instruction serialization) and
the parser's `data-ft` attribute (`JSON.parse`).  A number keeps its
lexeme, which is all the code under scrutiny ever reads back. -/

inductive Json where
  | null
  | bool (b : Bool)
  | num (raw : String)
  | str (s : String)
  | arr (elems : List Json)
  | obj (fields : List (String × Json))

/-- `JSON.stringify` escaping of one character of a string literal. -/
def jsonEscapeChar (c : Char) : List Char :=
  if c == '"' then ['\\', '"']
  else if c == '\\' then ['\\', '\\']
  else if c == '\n' then ['\\', 'n']
  else if c == '\r' then ['\\', 'r']
  else if c == '\t' then ['\\', 't']
  else if c.toNat == 8 then ['\\', 'b']
  else if c.toNat == 12 then ['\\', 'f']
  else if c.toNat < 32 then
    ['\\', 'u', '0', '0',
     (if c.toNat / 16 < 10 then Char.ofNat (48 + c.toNat / 16)
      else Char.ofNat (87 + c.toNat / 16)),
     (if c.toNat % 16 < 10 then Char.ofNat (48 + c.toNat % 16)
      else Char.ofNat (87 + c.toNat % 16))]
  else [c]

/-- A JSON string literal with its quotes. -/
def jsonQuote (s : String) : String :=
  ⟨'"' :: (s.toList.foldr (fun c acc => jsonEscapeChar c ++ acc) ['"'])⟩

mutual

/-- `JSON.stringify` (no indentation). -/
def jsonStringify : Json → String
  | .null => "null"
  | .bool true => "true"
  | .bool false => "false"
  | .num raw => raw
  | .str s => jsonQuote s
  | .arr l => "[" ++ jsonStringifyArr l ++ "]"
  | .obj fs => "\x7b" ++ jsonStringifyObj fs ++ "\x7d"

def jsonStringifyArr : List Json → String
  | [] => ""
  | [x] => jsonStringify x
  | x :: y :: rest => jsonStringify x ++ "," ++ jsonStringifyArr (y :: rest)

def jsonStringifyObj : List (String × Json) → String
  | [] => ""
  | [(k, v)] => jsonQuote k ++ ":" ++ jsonStringify v
  | (k, v) :: y :: rest =>
    jsonQuote k ++ ":" ++ jsonStringify v ++ "," ++ jsonStringifyObj (y :: rest)

end

/-! ## PlaywrightMCPAdapter (src adapters/playwright-mcp.ts) -/

/-- A `PlaywrightMCPInstruction`: tool name, params object,
human-readable description. -/
structure PWInstruction where
  tool : String
  params : List (String × Json)
  description : String

/-- `PlaywrightMCPAdapter.generateInstructions(url, action)`: the six
delegated actions (the `action` argument is accepted but not read by
the source either). -/
def PlaywrightMCPAdapter.generateInstructions (url : String)
    (action : String) : List PWInstruction :=
  [ ⟨"playwright_browser_navigate", [("url", .str url)],
      "Navigate to " ++ url⟩,
    ⟨"playwright_browser_wait_for", [("time", .num "3")],
      "Wait for page to load"⟩,
    ⟨"playwright_browser_press_key", [("key", .str "Escape")],
      "Dismiss any modals"⟩,
    ⟨"playwright_browser_evaluate",
      [("function", .str "() => \x7b window.scrollBy(0, 500); \x7d")],
      "Scroll to load more content"⟩,
    ⟨"playwright_browser_wait_for", [("time", .num "2")],
      "Wait for dynamic content"⟩,
    ⟨"playwright_browser_snapshot", [],
      "Capture page snapshot for parsing"⟩ ]

/-- One instruction as the JSON object `JSON.stringify` serializes. -/
def instrToJson (i : PWInstruction) : Json :=
  .obj [("tool", .str i.tool), ("params", .obj i.params),
        ("description", .str i.description)]

/-- Result envelope of the playwright-mcp adapter, with the
`metadata.instructions` hint (elapsed-time and timestamp metadata are
clock noise and carry no information for the claims). -/
structure PWResult where
  success : Bool
  data : Option Unit
  adapter_used : AdapterName
  error : Option String
  instructions : Option String
deriving DecidableEq, Repr

/-- `PlaywrightMCPAdapter.scrapeUrl`: under the enabled flag it never
fetches — it returns the delegation-required failure envelope whose
metadata carries the serialized instruction sequence; with the flag
off, the thrown configuration error is caught and wrapped by
`createErrorResult`. -/
def PlaywrightMCPAdapter.scrapeUrl (enabled : Bool) (url : String) :
    PWResult :=
  if enabled then
    { success := false, data := none, adapter_used := .playwrightMcp,
      error := some "PLAYWRIGHT_MCP_DELEGATION_REQUIRED",
      instructions := some (jsonStringify (.arr
        ((PlaywrightMCPAdapter.generateInstructions url "scrape").map
          instrToJson))) }
  else
    { success := false, data := none, adapter_used := .playwrightMcp,
      error := some "Playwright MCP is not enabled", instructions := none }

/-- Hex digit (uppercase) for percent-encoding. -/
def hexUpper (n : Nat) : Char :=
  if n < 10 then Char.ofNat (48 + n) else Char.ofNat (55 + n)

/-- UTF-8 bytes of a code point. -/
def utf8Bytes (n : Nat) : List Nat :=
  if n < 128 then [n]
  else if n < 2048 then [192 + n / 64, 128 + n % 64]
  else if n < 65536 then
    [224 + n / 4096, 128 + (n / 64) % 64, 128 + n % 64]
  else
    [240 + n / 262144, 128 + (n / 4096) % 64, 128 + (n / 64) % 64,
     128 + n % 64]

/-- Characters `encodeURIComponent` leaves as-is
(alphanumeric and `- _ . ! ~ * ' ( )`; code point 39 is the
apostrophe). -/
def uriUnescaped (c : Char) : Bool :=
  c.isAlpha || c.isDigit || c == '-' || c == '_' || c == '.' ||
  c == '!' || c == '~' || c == '*' || c.toNat == 39 ||
  c == '(' || c == ')'

/-- `encodeURIComponent`. -/
def encodeURIComponent (s : String) : String :=
  ⟨s.toList.foldr
    (fun c acc =>
      (if uriUnescaped c then [c]
       else (utf8Bytes c.toNat).foldr
         (fun b a => '%' :: hexUpper (b / 16) :: hexUpper (b % 16) :: a)
         []) ++ acc)
    []⟩

/-- `PlaywrightMCPAdapter.search`: builds the Facebook search URL for
the requested type (`options?.type || 'posts'`) and returns the same
delegation envelope. -/
def PlaywrightMCPAdapter.search (enabled : Bool) (query : String)
    (searchType : Option String) : PWResult :=
  let st := searchType.getD "posts"
  if enabled then
    let searchUrl :=
      "https://www.facebook.com/search/" ++ st ++ "?q=" ++
        encodeURIComponent query
    { success := false, data := none, adapter_used := .playwrightMcp,
      error := some "PLAYWRIGHT_MCP_DELEGATION_REQUIRED",
      instructions := some (jsonStringify (.arr
        ((PlaywrightMCPAdapter.generateInstructions searchUrl "search").map
          instrToJson))) }
  else
    { success := false, data := none, adapter_used := .playwrightMcp,
      error := some "Playwright MCP is not enabled", instructions := none }

/-! ## StandaloneAdapter url rewrite (src adapters/standalone.ts) -/

/-- `StandaloneAdapter.buildFacebookUrl` (identical in both standalone
adapter variants): when `use_mbasic` is configured and the url names
`facebook.com` but not `mbasic.`, chain three first-occurrence
replacements toward the `mbasic` host. -/
def StandaloneAdapter.buildFacebookUrl (use_mbasic : Bool)
    (url : String) : String :=
  if use_mbasic && jsIncludes url "facebook.com" &&
      !jsIncludes url "mbasic." then
    jsReplaceFirst
      (jsReplaceFirst
        (jsReplaceFirst url "www.facebook.com" "mbasic.facebook.com")
        "facebook.com" "mbasic.facebook.com")
      "m.facebook.com" "mbasic.facebook.com"
  else url

/-! ## The search success envelope (standalone.ts / brightdata.ts) -/

/-- `options?.limit || 10`: the effective search limit. -/
def effLimit (limit : Option Nat) : Nat :=
  match limit with
  | some l => if l = 0 then 10 else l
  | none => 10

/-- Modelled from the spec: `toSingularType` is imported from the
types module whose source is not among the repository files; per the
spec's data model it maps the plural search type to the
discriminated-union tag (`post/page/group/event/marketplace`). -/
def toSingularType : String → String
  | "posts" => "post"
  | "pages" => "page"
  | "groups" => "group"
  | "events" => "event"
  | "marketplace" => "marketplace"
  | s => s

/-- The `FacebookSearchResult` payload as the adapters build it. -/
structure SearchData (α : Type) where
  type : String
  items : List α
  total_count : Nat
  has_more : Bool
deriving DecidableEq, Repr

/-- The `data` object of `StandaloneAdapter.search`'s success path:
`items` are the parsed posts, truncated to the limit; `total_count`
and `has_more` are computed from the un-truncated list. -/
def StandaloneAdapter.searchData {α : Type} (items : List α)
    (searchType : String) (limit : Option Nat) : SearchData α :=
  { type := toSingularType searchType
    items := items.take (effLimit limit)
    total_count := items.length
    has_more := decide (items.length > effLimit limit) }

/-- The `data` object of `BrightDataAdapter.search`'s success path
(the source duplicates the construction verbatim). -/
def BrightDataAdapter.searchData {α : Type} (items : List α)
    (searchType : String) (limit : Option Nat) : SearchData α :=
  { type := toSingularType searchType
    items := items.take (effLimit limit)
    total_count := items.length
    has_more := decide (items.length > effLimit limit) }

/-! ## DOM model

The document as cheerio's `load` exposes it: a tree of elements
(tag, attribute list, children) and text nodes.  `cheerio.load` is a
third-party HTML parser and is not itself modelled: an `HtmlInput`
pairs the raw markup string (read only by the version sniffing)
with the loaded tree. -/

inductive Node where
  | elem (tag : String) (attrs : List (String × String)) (children : List Node)
  | text (s : String)

/-- A parsed document: raw markup plus its top-level nodes. -/
structure HtmlInput where
  raw : String
  dom : List Node

mutual

/-- `.text()`: the concatenation of all descendant text, in order. -/
def textOfNode : Node → String
  | .text s => s
  | .elem _ _ cs => textOfList cs

def textOfList : List Node → String
  | [] => ""
  | n :: ns => textOfNode n ++ textOfList ns

end

/-- Tag and attributes of an ancestor, as selector matching needs it. -/
structure ETag where
  tag : String
  attrs : List (String × String)

/-- An element occurrence: the element's data plus its ancestor chain
(nearest first), which combinator matching walks upward. -/
structure Occ where
  tag : String
  attrs : List (String × String)
  children : List Node
  chain : List ETag

mutual

/-- All element occurrences inside one node, in document (pre-)order. -/
def occsOfNode (chain : List ETag) : Node → List Occ
  | .text _ => []
  | .elem tag attrs children =>
    ⟨tag, attrs, children, chain⟩ ::
      occsOfList (⟨tag, attrs⟩ :: chain) children

def occsOfList (chain : List ETag) : List Node → List Occ
  | [] => []
  | n :: ns => occsOfNode chain n ++ occsOfList chain ns

end

/-- All element occurrences of a document (`$(selector)` scope). -/
def allOccs (h : HtmlInput) : List Occ :=
  occsOfList [] h.dom

/-- `.text()` of an occurrence. -/
def occText (o : Occ) : String :=
  textOfList o.children

/-- `.attr(name)`. -/
def occAttr (o : Occ) (name : String) : Option String :=
  mapGet o.attrs name

/-! ## CSS selector subset

Exactly the selector forms the parser's tables use: optional tag
name; `[attr]`, `[attr="v"]`, `[attr*="v"]`; `.class`; `#id`;
the child (`>`) and descendant (space) combinators.  Comma groups
are lists of selectors at the call sites. -/

inductive AttrTest where
  | has (name : String)
  | isEq (name : String) (val : String)
  | containsV (name : String) (val : String)
  | cls (c : String)
  | idIs (v : String)

/-- A compound of one tag test and attribute tests. -/
structure SimpleSel where
  tag : Option String
  tests : List AttrTest

inductive Sel where
  | simple (s : SimpleSel)
  | child (anc : Sel) (s : SimpleSel)
  | desc (anc : Sel) (s : SimpleSel)

/-- Split a class attribute on whitespace. -/
def splitWords (l : List Char) (acc : List Char) : List (List Char) :=
  match l with
  | [] => if acc.isEmpty then [] else [acc.reverse]
  | c :: rest =>
    if jsIsSpace c then
      if acc.isEmpty then splitWords rest []
      else acc.reverse :: splitWords rest []
    else splitWords rest (c :: acc)

def matchAttrTest (attrs : List (String × String)) : AttrTest → Bool
  | .has n => (mapGet attrs n).isSome
  | .isEq n v =>
    match mapGet attrs n with
    | some w => w == v
    | none => false
  | .containsV n v =>
    match mapGet attrs n with
    | some w => jsIncludes w v
    | none => false
  | .cls c =>
    match mapGet attrs "class" with
    | some w => (splitWords w.toList []).any (fun word => word == c.toList)
    | none => false
  | .idIs v =>
    match mapGet attrs "id" with
    | some w => w == v
    | none => false

def matchSimple (s : SimpleSel) (tag : String)
    (attrs : List (String × String)) : Bool :=
  (match s.tag with
   | some t => t == tag
   | none => true) &&
  s.tests.all (matchAttrTest attrs)

/-- Each ancestor paired with its own remaining ancestor chain. -/
def chainPairs : List ETag → List (ETag × List ETag)
  | [] => []
  | p :: rest => (p, rest) :: chainPairs rest

/-- Match a selector against an element given its ancestor chain.  The
descendant combinator tries every (not necessarily proper-parent)
ancestor. -/
def matchSelChain : Sel → String → List (String × String) → List ETag → Bool
  | .simple s, tag, attrs, _ => matchSimple s tag attrs
  | .child a s, tag, attrs, chain =>
    matchSimple s tag attrs &&
      (match chain with
       | [] => false
       | p :: rest => matchSelChain a p.tag p.attrs rest)
  | .desc a s, tag, attrs, chain =>
    matchSimple s tag attrs &&
      (chainPairs chain).any fun pr => matchSelChain a pr.1.tag pr.1.attrs pr.2

/-- Match a selector against an occurrence. -/
def matchSel (s : Sel) (o : Occ) : Bool :=
  matchSelChain s o.tag o.attrs o.chain

/-- `$(sel₁, sel₂, …)` over a list of occurrences: document order,
any selector of the group. -/
def selectAll (sels : List Sel) (occs : List Occ) : List Occ :=
  occs.filter (fun o => sels.any (fun s => matchSel s o))

/-- `.find(sel₁, …)`: strict descendants matching any selector of the
group (ancestors above the context element stay visible to
combinators, as in cheerio). -/
def occFind (o : Occ) (sels : List Sel) : List Occ :=
  selectAll sels (occsOfList (⟨o.tag, o.attrs⟩ :: o.chain) o.children)

/-! ## JSON.parse

A recursive-descent parser for the JSON grammar, fuelled (the fuel is
a length bound, so well-formed input never exhausts it); numbers keep
their lexeme.  `\u` escapes decode the given code unit (surrogate
pairing is out of scope: no input under scrutiny contains one). -/

/-- Hexadecimal digit value. -/
def hexVal (c : Char) : Option Nat :=
  if '0' ≤ c && c ≤ '9' then some (c.toNat - 48)
  else if 'a' ≤ c && c ≤ 'f' then some (c.toNat - 87)
  else if 'A' ≤ c && c ≤ 'F' then some (c.toNat - 55)
  else none

/-- Resolve a single-character escape. -/
def jsonEscVal (e : Char) : Option Char :=
  if e == '"' then some '"'
  else if e == '\\' then some '\\'
  else if e == '/' then some '/'
  else if e == 'n' then some '\n'
  else if e == 't' then some '\t'
  else if e == 'r' then some '\r'
  else if e == 'b' then some (Char.ofNat 8)
  else if e == 'f' then some (Char.ofNat 12)
  else none

/-- String body after the opening quote: characters up to the closing
quote, escapes resolved.  Fuelled (every step consumes at least one
character, so a fuel of the input length plus one never runs out). -/
def jsonStrCharsGo : Nat → List Char → Option (List Char × List Char)
  | 0, _ => none
  | _, [] => none
  | fuel + 1, c :: rest =>
    if c == '"' then some ([], rest)
    else if c == '\\' then
      match rest with
      | [] => none
      | e :: rest' =>
        match jsonEscVal e with
        | some ch =>
          match jsonStrCharsGo fuel rest' with
          | some (s, r) => some (ch :: s, r)
          | none => none
        | none =>
          if e == 'u' then
            match rest' with
            | a :: b :: c2 :: d :: rest2 =>
              match hexVal a, hexVal b, hexVal c2, hexVal d with
              | some x1, some x2, some x3, some x4 =>
                match jsonStrCharsGo fuel rest2 with
                | some (s, r) =>
                  some (Char.ofNat (4096 * x1 + 256 * x2 + 16 * x3 + x4)
                    :: s, r)
                | none => none
              | _, _, _, _ => none
            | _ => none
          else none
    else if c.toNat < 32 then none
    else
      match jsonStrCharsGo fuel rest with
      | some (s, r) => some (c :: s, r)
      | none => none

def jsonStrChars (l : List Char) : Option (List Char × List Char) :=
  jsonStrCharsGo (l.length + 1) l

/-- A JSON number lexeme (`-? int frac? exp?`, leading zeros
rejected), returned verbatim with the rest of the input. -/
def parseJsonNumber (l : List Char) : Option (List Char × List Char) :=
  let sl : List Char × List Char :=
    match l with
    | c :: r => if c == '-' then ([c], r) else ([], l)
    | [] => ([], l)
  let sign := sl.1
  let l1 := sl.2
  let intDigits := l1.takeWhile Char.isDigit
  let rest1 := l1.dropWhile Char.isDigit
  if intDigits.isEmpty then none
  else if 1 < intDigits.length && intDigits.head? == some '0' then none
  else
    let fracRes : Option (List Char × List Char) :=
      match rest1 with
      | c :: r =>
        if c == '.' then
          let ds := r.takeWhile Char.isDigit
          if ds.isEmpty then none
          else some ('.' :: ds, r.dropWhile Char.isDigit)
        else some ([], rest1)
      | [] => some ([], rest1)
    match fracRes with
    | none => none
    | some (fracPart, rest2) =>
      let expRes : Option (List Char × List Char) :=
        match rest2 with
        | c :: r =>
          if c == 'e' || c == 'E' then
            let er : List Char × List Char :=
              match r with
              | c2 :: r2 =>
                if c2 == '+' || c2 == '-' then ([c, c2], r2) else ([c], r)
              | [] => ([c], r)
            let ds := er.2.takeWhile Char.isDigit
            if ds.isEmpty then none
            else some (er.1 ++ ds, er.2.dropWhile Char.isDigit)
          else some ([], rest2)
        | [] => some ([], rest2)
      match expRes with
      | none => none
      | some (expPart, rest3) =>
        some (sign ++ intDigits ++ fracPart ++ expPart, rest3)

mutual

def jsonParseValue : Nat → List Char → Option (Json × List Char)
  | 0, _ => none
  | fuel + 1, l0 =>
    let l := l0.dropWhile jsIsSpace
    match l with
    | [] => none
    | c :: rest =>
      if c == '"' then
        match jsonStrChars rest with
        | some (s, r) => some (.str ⟨s⟩, r)
        | none => none
      else if c.toNat == 123 then jsonParseObj fuel rest
      else if c == '[' then jsonParseArrStart fuel rest
      else if startsWithL "null".toList l then some (.null, l.drop 4)
      else if startsWithL "true".toList l then some (.bool true, l.drop 4)
      else if startsWithL "false".toList l then some (.bool false, l.drop 5)
      else
        match parseJsonNumber l with
        | some (lex, r) => some (.num ⟨lex⟩, r)
        | none => none

/-- After `[`: the empty array or its items. -/
def jsonParseArrStart : Nat → List Char → Option (Json × List Char)
  | 0, _ => none
  | fuel + 1, l0 =>
    let l := l0.dropWhile jsIsSpace
    match l with
    | c :: rest =>
      if c == ']' then some (.arr [], rest)
      else
        match jsonParseArrItems fuel l with
        | some (vs, r) => some (.arr vs, r)
        | none => none
    | [] => none

def jsonParseArrItems : Nat → List Char → Option (List Json × List Char)
  | 0, _ => none
  | fuel + 1, l =>
    match jsonParseValue fuel l with
    | none => none
    | some (v, r0) =>
      let r := r0.dropWhile jsIsSpace
      match r with
      | c :: r2 =>
        if c == ',' then
          match jsonParseArrItems fuel r2 with
          | some (vs, r3) => some (v :: vs, r3)
          | none => none
        else if c == ']' then some ([v], r2)
        else none
      | [] => none

/-- After the opening brace: the empty object or its members. -/
def jsonParseObj : Nat → List Char → Option (Json × List Char)
  | 0, _ => none
  | fuel + 1, l0 =>
    let l := l0.dropWhile jsIsSpace
    match l with
    | c :: _ =>
      if c.toNat == 125 then some (.obj [], l.drop 1)
      else
        match jsonParseObjItems fuel l with
        | some (fs, r) => some (.obj fs, r)
        | none => none
    | [] => none

def jsonParseObjItems : Nat → List Char →
    Option (List (String × Json) × List Char)
  | 0, _ => none
  | fuel + 1, l0 =>
    let l := l0.dropWhile jsIsSpace
    match l with
    | c :: rest =>
      if c == '"' then
        match jsonStrChars rest with
        | some (k, r0) =>
          let r := r0.dropWhile jsIsSpace
          match r with
          | c2 :: r2 =>
            if c2 == ':' then
              match jsonParseValue fuel r2 with
              | some (v, r3) =>
                let r4 := r3.dropWhile jsIsSpace
                match r4 with
                | c3 :: r5 =>
                  if c3 == ',' then
                    match jsonParseObjItems fuel r5 with
                    | some (fs, r6) => some ((⟨k⟩, v) :: fs, r6)
                    | none => none
                  else if c3.toNat == 125 then some ([(⟨k⟩, v)], r5)
                  else none
                | [] => none
              | none => none
            else none
          | [] => none
        | none => none
      else none
    | [] => none

end

/-- `JSON.parse`: parse one value, require only whitespace after it. -/
def jsonParse (s : String) : Option Json :=
  match jsonParseValue (3 * s.toList.length + 3) s.toList with
  | some (v, rest) =>
    if (rest.dropWhile jsIsSpace).isEmpty then some v else none
  | none => none

/-- JS property read on a parsed object: the last duplicate of a key
wins (as in `JSON.parse`). -/
def objLookup : List (String × Json) → String → Option Json
  | [], _ => none
  | (k', v) :: rest, k =>
    match objLookup rest k with
    | some r => some r
    | none => if k' == k then some v else none

/-- `ftData.key` for the keys the parser reads. -/
def jsonProp (j : Json) (k : String) : Option Json :=
  match j with
  | .obj fs => objLookup fs k
  | _ => none

/-- The mantissa of a number lexeme is all zeros. -/
def jsonNumIsZero (raw : String) : Bool :=
  ((raw.toList.takeWhile (fun c => !(c == 'e' || c == 'E'))).filter
    Char.isDigit).all (fun c => c == '0')

/-- JavaScript truthiness of a parsed JSON value. -/
def jsTruthy : Json → Bool
  | .null => false
  | .bool b => b
  | .num raw => !jsonNumIsZero raw
  | .str s => !s.isEmpty
  | .arr _ => true
  | .obj _ => true

/-- `String(n)` for a parsed number, modelled for plain decimal
lexemes (sign, integer part with leading zeros stripped, fraction
with trailing zeros trimmed); a lexeme carrying an exponent is kept
as written — no claim under scrutiny reads such a number back. -/
def numLexToString (raw : String) : String :=
  let l := raw.toList
  if l.any (fun c => c == 'e' || c == 'E') then raw
  else
    let nl : Bool × List Char :=
      match l with
      | c :: r => if c == '-' then (true, r) else (false, l)
      | [] => (false, l)
    let intStripped :=
      let d := (nl.2.takeWhile Char.isDigit).dropWhile (fun c => c == '0')
      d
    let fracPart := (nl.2.dropWhile Char.isDigit).drop 1
    let fracTrimmed :=
      (fracPart.reverse.dropWhile (fun c => c == '0')).reverse
    let core :=
      (if intStripped.isEmpty then ['0'] else intStripped) ++
        (if fracTrimmed.isEmpty then [] else '.' :: fracTrimmed)
    let isZero := core == ['0']
    ⟨(if nl.1 && !isZero then ['-'] else []) ++ core⟩

mutual

/-- `String(v)` for a parsed JSON value. -/
def jsToString : Json → String
  | .str s => s
  | .num raw => numLexToString raw
  | .bool true => "true"
  | .bool false => "false"
  | .null => "null"
  | .arr l => jsArrJoin l
  | .obj _ => "[object Object]"

/-- `Array.prototype.join(',')` as `String(array)` performs it
(`null` elements join as empty). -/
def jsArrJoin : List Json → String
  | [] => ""
  | [Json.null] => ""
  | [x] => jsToString x
  | Json.null :: y :: r => "," ++ jsArrJoin (y :: r)
  | x :: y :: r => jsToString x ++ "," ++ jsArrJoin (y :: r)

end

/-! ## FacebookParser selector tables (src parsers/facebook-parser.ts)

Each selector string of the `SELECTORS` table transcribed to the
selector AST. -/

/-- The two structural dialects. -/
inductive FbVersion where
  | mbasic
  | regular
deriving DecidableEq, Repr

/-- The per-dialect table: ordered candidate selectors per field. -/
structure SelectorSet where
  posts : List Sel
  author : List Sel
  content : List Sel
  timestamp : List Sel
  link : List Sel

/-- `SELECTORS.mbasic`. -/
def mbasicSelectors : SelectorSet :=
  { posts :=
      [ .simple ⟨some "div", [.has "data-ft"]⟩,
        .simple ⟨some "article", []⟩,
        .simple ⟨some "div", [.cls "story_body_container"]⟩,
        .simple ⟨some "div", [.idIs "m_story_permalink_view"]⟩,
        .simple ⟨some "div", [.isEq "data-sigil" "story-div"]⟩,
        .child (.child (.child (.simple ⟨some "section", []⟩)
          ⟨some "div", []⟩) ⟨some "div", []⟩) ⟨some "div", []⟩ ]
    author :=
      [ .desc (.simple ⟨some "a", []⟩) ⟨some "strong", []⟩,
        .desc (.simple ⟨some "h3", []⟩) ⟨some "a", []⟩,
        .desc (.simple ⟨some "header", []⟩) ⟨some "a", []⟩,
        .simple ⟨some "a", [.containsV "href" "/profile"]⟩,
        .simple ⟨some "a", [.containsV "href" "/pages"]⟩,
        .simple ⟨some "a", [.containsV "href" "user"]⟩ ]
    content :=
      [ .child (.child (.simple ⟨some "div", [.has "data-ft"]⟩)
          ⟨some "div", []⟩) ⟨some "span", []⟩,
        .child (.simple ⟨some "div", [.cls "story_body_container"]⟩)
          ⟨some "div", []⟩,
        .simple ⟨some "p", []⟩,
        .simple ⟨some "span", [.has "lang"]⟩,
        .simple ⟨some "div", [.isEq "dir" "auto"]⟩ ]
    timestamp :=
      [ .simple ⟨some "abbr", []⟩,
        .simple ⟨some "time", []⟩,
        .simple ⟨some "span", [.has "data-utime"]⟩,
        .simple ⟨some "a", [.containsV "href" "story_time"]⟩ ]
    link :=
      [ .simple ⟨some "a", [.containsV "href" "/story"]⟩,
        .simple ⟨some "a", [.containsV "href" "/posts/"]⟩,
        .simple ⟨some "a", [.containsV "href" "/permalink"]⟩,
        .simple ⟨some "a", [.containsV "href" "story_fbid"]⟩ ] }

/-- `SELECTORS.regular`. -/
def regularSelectors : SelectorSet :=
  { posts :=
      [ .simple ⟨none, [.containsV "data-pagelet" "FeedUnit"]⟩,
        .simple ⟨none, [.isEq "data-testid" "Keycommand_wrapper"]⟩,
        .simple ⟨some "div", [.isEq "role" "article"]⟩,
        .simple ⟨some "div", [.has "data-ad-preview"]⟩,
        .simple ⟨some "div", [.cls "userContentWrapper"]⟩ ]
    author :=
      [ .desc (.simple ⟨some "h2", []⟩) ⟨some "a", []⟩,
        .desc (.simple ⟨some "h3", []⟩) ⟨some "a", []⟩,
        .desc (.simple ⟨some "strong", []⟩) ⟨some "a", []⟩,
        .simple ⟨some "a", [.isEq "role" "link", .containsV "href" "/user"]⟩,
        .simple ⟨some "a",
          [.isEq "role" "link", .containsV "href" "/profile"]⟩,
        .desc (.simple ⟨some "span", [.cls "fwb"]⟩) ⟨some "a", []⟩ ]
    content :=
      [ .simple ⟨some "div", [.isEq "data-testid" "post_message"]⟩,
        .simple ⟨some "div", [.has "data-ad-comet-preview"]⟩,
        .simple ⟨some "div", [.isEq "dir" "auto"]⟩,
        .simple ⟨some "span", [.isEq "dir" "auto"]⟩,
        .simple ⟨some "div", [.containsV "class" "userContent"]⟩ ]
    timestamp :=
      [ .desc (.simple ⟨some "a", [.isEq "role" "link"]⟩)
          ⟨some "span", [.has "aria-labelledby"]⟩,
        .simple ⟨some "abbr", [.has "data-utime"]⟩,
        .desc (.simple ⟨some "span", [.containsV "id" "jsc_c"]⟩)
          ⟨some "a", []⟩,
        .simple ⟨some "a", [.containsV "href" "posts/"]⟩ ]
    link :=
      [ .simple ⟨some "a", [.containsV "href" "/posts/"]⟩,
        .simple ⟨some "a", [.containsV "href" "story_fbid"]⟩,
        .simple ⟨some "a", [.containsV "href" "/permalink/"]⟩ ] }

/-- `detectFacebookVersion`: sniff the raw markup, default mbasic. -/
def detectFacebookVersion (h : HtmlInput) : FbVersion :=
  if jsIncludes h.raw "mbasic.facebook.com" ||
      jsIncludes h.raw "m.facebook.com" then .mbasic
  else if jsIncludes h.raw "data-pagelet" ||
      jsIncludes h.raw "__comet_" then .regular
  else .mbasic

def selectorsFor : FbVersion → SelectorSet
  | .mbasic => mbasicSelectors
  | .regular => regularSelectors

/-! ## Field extraction (FacebookParser.parsePostElement) -/

/-- A `FacebookPost` record (the `reactions` object carries only its
`total` here, the sole key the parser ever sets). -/
structure FacebookPost where
  id : String
  author : String
  author_url : Option String
  content : String
  timestamp : Option String
  reactions_total : Option Nat
  comments_count : Option Nat
  shares_count : Option Nat
  images : Option (List String)
  post_url : String
deriving DecidableEq, Repr

/-- `s.startsWith(pat)`. -/
def jsStartsWith (s pat : String) : Bool :=
  startsWithL pat.toList s.toList

/-- A JS `x || …` step on an optional string: empty is falsy. -/
def truthyStr : Option String → Option String
  | some v => if v.isEmpty then none else some v
  | none => none

/-- The author cascade: first selector whose first match has
non-empty trimmed text shorter than 100, with its (possibly
absolutized) href. -/
def extractAuthor (e : Occ) : List Sel → String × Option String
  | [] => ("Unknown", none)
  | s :: rest =>
    match (occFind e [s]).head? with
    | none => extractAuthor e rest
    | some ae =>
      let t := jsTrim (occText ae)
      if !t.isEmpty && decide (t.length < 100) then
        let au :=
          match truthyStr (occAttr ae "href") with
          | some u =>
            if jsStartsWith u "http" then some u
            else some ("https://www.facebook.com" ++ u)
          | none => none
        (t, au)
      else extractAuthor e rest

/-- The content cascade: longest non-empty candidate wins. -/
def extractContentLongest (e : Occ) (sels : List Sel) : String :=
  sels.foldl
    (fun content s =>
      let found :=
        match (occFind e [s]).head? with
        | some fe => jsTrim (occText fe)
        | none => ""
      if !found.isEmpty && decide (content.length < found.length) then found
      else content)
    ""

/-- `.replace(/\s+/g, ' ')`: each maximal whitespace run becomes one
space (`prevSpace` tracks whether the current run already emitted
its space). -/
def collapseWSGo (prevSpace : Bool) : List Char → List Char
  | [] => []
  | c :: rest =>
    if jsIsSpace c then
      if prevSpace then collapseWSGo true rest
      else ' ' :: collapseWSGo true rest
    else c :: collapseWSGo false rest

def collapseWS (l : List Char) : List Char :=
  collapseWSGo false l

/-- Case-insensitive literal match at the head. -/
def startsWithCI (pat : String) (l : List Char) : Bool :=
  startsWithL (pat.toList.map Char.toLower) (l.map Char.toLower)

/-- `\s*\d+\s*(Like|Comment|Share)` (case-insensitive, greedy inner
quantifiers) matched at the head: the rest after the keyword. -/
def likeKeywordAfter (l : List Char) : Option (List Char) :=
  let l1 := l.dropWhile jsIsSpace
  let digits := l1.takeWhile Char.isDigit
  if digits.isEmpty then none
  else
    let l2 := (l1.dropWhile Char.isDigit).dropWhile jsIsSpace
    if startsWithCI "like" l2 then some (l2.drop 4)
    else if startsWithCI "comment" l2 then some (l2.drop 7)
    else if startsWithCI "share" l2 then some (l2.drop 5)
    else none

/-- Scan for the lazy `^(.*?)` prefix: the shortest non-newline
prefix after which the counter pattern matches. -/
def stripLikeGo (acc : List Char) : List Char → Option (List Char)
  | [] => none
  | c :: t =>
    match likeKeywordAfter (c :: t) with
    | some rest => some (acc.reverse ++ rest)
    | none =>
      if c == '\n' || c == '\r' then none
      else stripLikeGo (c :: acc) t

/-- `.replace(/^(.*?)\s*\d+\s*(Like|Comment|Share)/i, '$1')`. -/
def jsStripLikeCounter (s : String) : String :=
  match stripLikeGo [] s.toList with
  | some r => ⟨r⟩
  | none => s

/-- The timestamp cascade: per selector, `attr('title') ||
attr('data-utime') || text().trim() || undefined`; first truthy
wins. -/
def extractTimestamp (e : Occ) : List Sel → Option String
  | [] => none
  | s :: rest =>
    let ts :=
      match (occFind e [s]).head? with
      | none => none
      | some te =>
        (truthyStr (occAttr te "title")).orElse (fun _ =>
          (truthyStr (occAttr te "data-utime")).orElse (fun _ =>
            truthyStr (some (jsTrim (occText te)))))
    match ts with
    | some v => some v
    | none => extractTimestamp e rest

/-- Split at the first occurrence of a separator character. -/
def splitFirstChar (sep : Char) : List Char → Option (List Char × List Char)
  | [] => none
  | c :: rest =>
    if c == sep then some ([], rest)
    else
      match splitFirstChar sep rest with
      | some (a, b) => some (c :: a, b)
      | none => none

/-- Split on every occurrence of a separator character, as
`String.prototype.split` does (`""` splits to `[""]`). -/
def splitAllGo (sep : Char) (acc : List Char) : List Char → List (List Char)
  | [] => [acc.reverse]
  | c :: rest =>
    if c == sep then acc.reverse :: splitAllGo sep [] rest
    else splitAllGo sep (c :: acc) rest

def splitAllChar (sep : Char) (l : List Char) : List (List Char) :=
  splitAllGo sep [] l

/-- The query-parameter name (text before `=`). -/
def paramName (p : List Char) : List Char :=
  p.takeWhile (fun c => !(c == '='))

/-- Interpose a separator. -/
def joinWith (sep : Char) : List (List Char) → List Char
  | [] => []
  | [x] => x
  | x :: y :: r => x ++ sep :: joinWith sep (y :: r)

/-- The `new URL` / `searchParams.delete('__cft__','__tn__')` /
`toString()` round trip, modelled for the ordinary absolute URLs the
parser builds (an unparsable URL is kept, as the `catch` does;
`toString` normalizations beyond parameter removal are out of
scope). -/
def stripTrackingParams (u : String) : String :=
  if !(jsStartsWith u "http://" || jsStartsWith u "https://") then u
  else
    match splitFirstChar '?' u.toList with
    | none => u
    | some (base, afterQ) =>
      let qf : List Char × List Char :=
        match splitFirstChar '#' afterQ with
        | some (q, f) => (q, '#' :: f)
        | none => (afterQ, [])
      let params := (splitAllChar '&' qf.1).filter
        (fun p =>
          !(paramName p == "__cft__".toList) &&
          !(paramName p == "__tn__".toList))
      let rebuilt :=
        base ++
          (if params.isEmpty then [] else '?' :: joinWith '&' params) ++
          qf.2
      ⟨rebuilt⟩

/-- The post-link cascade: first selector whose first match carries a
truthy href; the href is absolutized and tracking parameters are
stripped. -/
def extractPostUrl (e : Occ) : List Sel → String
  | [] => ""
  | s :: rest =>
    match (occFind e [s]).head? with
    | none => extractPostUrl e rest
    | some le =>
      match occAttr le "href" with
      | some href =>
        if href.isEmpty then extractPostUrl e rest
        else
          let pu :=
            if jsStartsWith href "http" then href
            else "https://www.facebook.com" ++ href
          stripTrackingParams pu
      | none => extractPostUrl e rest

/-- The value of the first digit run (`match(/(\d+)/)` + parseInt). -/
def digitsToNat (l : List Char) : Nat :=
  l.foldl (fun a c => a * 10 + (c.toNat - 48)) 0

def firstIntRun : List Char → Option Nat
  | [] => none
  | c :: rest =>
    if c.isDigit then some (digitsToNat (c :: rest.takeWhile Char.isDigit))
    else firstIntRun rest

/-- `.find(sels).text()`: concatenated text of every match. -/
def occFindText (e : Occ) (sels : List Sel) : String :=
  (occFind e sels).foldl (fun acc o => acc ++ occText o) ""

def reactionSels : List Sel :=
  [ .simple ⟨some "span", [.containsV "id" "like"]⟩,
    .simple ⟨some "a", [.containsV "href" "reaction"]⟩ ]

def commentCountSels : List Sel :=
  [ .simple ⟨some "a", [.containsV "href" "comment"]⟩ ]

def shareCountSels : List Sel :=
  [ .simple ⟨some "a", [.containsV "href" "share"]⟩ ]

def imageSels : List Sel :=
  [ .simple ⟨some "img", [.containsV "src" "fbcdn"]⟩,
    .simple ⟨some "img", [.containsV "data-src" "fbcdn"]⟩ ]

/-- Collect `src || data-src` of CDN images, excluding emoji/static
assets. -/
def extractImages (e : Occ) : List String :=
  (occFind e imageSels).foldr
    (fun io acc =>
      match (truthyStr (occAttr io "src")).orElse
          (fun _ => truthyStr (occAttr io "data-src")) with
      | some src =>
        if !(jsIncludes src "emoji") && !(jsIncludes src "static") then
          src :: acc
        else acc
      | none => acc)
    []

/-- The `top_level_post_id` fallback of the id extraction. -/
def topLevelIdOr (ft : Json) (freshId : String) : String :=
  match jsonProp ft "top_level_post_id" with
  | some v => if jsTruthy v then jsToString v else freshId
  | none => freshId

/-- `FacebookParser.parsePostElement`: `freshId` stands for the
synthesized ``post_${Date.now()}_${random}`` id minted at entry. -/
def parsePostElement (freshId : String) (e : Occ) (sels : SelectorSet) :
    FacebookPost :=
  let postId :=
    match occAttr e "data-ft" with
    | none => freshId
    | some dft =>
      match jsonParse dft with
      | none => freshId
      | some ft =>
        match jsonProp ft "mf_story_key" with
        | some v => if jsTruthy v then jsToString v else topLevelIdOr ft freshId
        | none => topLevelIdOr ft freshId
  let authorPair := extractAuthor e sels.author
  let content0 := extractContentLongest e sels.content
  let content :=
    if content0.isEmpty || decide (content0.length < 10) then
      jsSubstringTo
        (jsStripLikeCounter ⟨collapseWS (jsTrim (occText e)).toList⟩) 1000
    else content0
  let timestamp := extractTimestamp e sels.timestamp
  let postUrl := extractPostUrl e sels.link
  let reactionsTotal := (firstIntRun (occFindText e reactionSels).toList).getD 0
  let commentsCount :=
    (firstIntRun (occFindText e commentCountSels).toList).getD 0
  let sharesCount := (firstIntRun (occFindText e shareCountSels).toList).getD 0
  let images := extractImages e
  { id := postId
    author := authorPair.1
    author_url := authorPair.2
    content := jsSubstringTo content 2000
    timestamp := timestamp
    reactions_total := if 0 < reactionsTotal then some reactionsTotal else none
    comments_count := if commentsCount == 0 then none else some commentsCount
    shares_count := if sharesCount == 0 then none else some sharesCount
    images := if images.isEmpty then none else some images
    post_url := postUrl }

/-! ## parsePosts (structural pass, dedup, fallback, cap) -/

/-- The `.each` body over one selector's matches: keep a post whose
content is truthy and longer than 10, unless a kept post already has
equal content, or an equal non-`'unknown'` id. -/
def processGo (ids : Nat → String) (sels : SelectorSet) :
    Nat → List FacebookPost → List Occ → List FacebookPost
  | _, acc, [] => acc
  | idx, acc, e :: rest =>
    let post := parsePostElement (ids idx) e sels
    let keep := !post.content.isEmpty && decide (10 < post.content.length)
    let dup := acc.any fun p =>
      p.content == post.content ||
        (p.id == post.id && !(post.id == "unknown"))
    processGo ids sels (idx + 1)
      (if keep && !dup then acc ++ [post] else acc) rest

/-- The `for (const postSelector of selectors.posts)` loop: the first
selector with matches whose processing keeps at least one post
wins. -/
def tryPostSelectors (ids : Nat → String) (sels : SelectorSet)
    (occs : List Occ) : List Sel → List FacebookPost
  | [] => []
  | s :: rest =>
    let elements := selectAll [s] occs
    if elements.isEmpty then tryPostSelectors ids sels occs rest
    else
      let posts := processGo ids sels 0 [] elements
      if posts.isEmpty then tryPostSelectors ids sels occs rest
      else posts

/-- `'p, div[dir="auto"], span[lang]'`. -/
def fallbackSels : List Sel :=
  [ .simple ⟨some "p", []⟩,
    .simple ⟨some "div", [.isEq "dir" "auto"]⟩,
    .simple ⟨some "span", [.has "lang"]⟩ ]

/-- `FacebookParser.extractFallbackPosts`: blind text extraction over
the generic text-bearing elements; `idx` is the `.each` index. -/
def extractFallbackGo : Nat → List Occ → List FacebookPost
  | _, [] => []
  | idx, e :: rest =>
    let text := jsTrim (occText e)
    if decide (50 < text.length) && decide (text.length < 5000) then
      let lower := jsToLower text
      if !(jsIncludes lower "log in") && !(jsIncludes lower "sign up") &&
          !(jsIncludes lower "create account") then
        { id := "fallback_" ++ toString idx
          author := "Unknown"
          author_url := none
          content := jsSubstringTo text 500
          timestamp := none
          reactions_total := none
          comments_count := none
          shares_count := none
          images := none
          post_url := "" } :: extractFallbackGo (idx + 1) rest
      else extractFallbackGo (idx + 1) rest
    else extractFallbackGo (idx + 1) rest

/-- `FacebookParser.parsePosts`: dialect detection, cascading
structural pass, fallback text extraction when the structural pass
kept nothing, 50-post cap.  `ids` supplies the synthesized id for
the n-th `parsePostElement` call; the embedding is total — every
per-element throw of the source is caught and skipped, and no
embedded operation throws. -/
def FacebookParser.parsePosts (h : HtmlInput) (ids : Nat → String) :
    List FacebookPost :=
  let sels := selectorsFor (detectFacebookVersion h)
  let occs := allOccs h
  let structural := tryPostSelectors ids sels occs sels.posts
  let posts :=
    if structural.isEmpty then extractFallbackGo 0 (selectAll fallbackSels occs)
    else structural
  posts.take 50

/-! ## Concrete parser inputs for witnesses and refutations -/

/-- A synthesized-id supply (injective, never `"unknown"`). -/
def synthIds : Nat → String := fun i => "post_synth_" ++ toString i

/-- The fallback-pass witness text (88 characters, no UI phrases). -/
def fallText : String :=
  "This is a sufficiently long piece of genuine post text for the fallback extraction pass."

/-- Markup with no structural post container but one generic `p`. -/
def hW3 : HtmlInput :=
  { raw := "<html><body><p>x</p></body></html>"
    dom := [Node.elem "html" [] [Node.elem "body" []
      [Node.elem "p" [] [Node.text fallText]]]] }

/-- The `p` occurrence of `hW3`. -/
def pOccW : Occ :=
  ⟨"p", [], [Node.text fallText], [⟨"body", []⟩, ⟨"html", []⟩]⟩

/-- The per-post metadata attribute of the C9 scenario. -/
def storyKeyJson : String := "\x7b\"mf_story_key\":\"555\"\x7d"

/-- A 43-character body text. -/
def dupText : String := "A forty character long post body text here."

/-- Two matched `div[data-ft]` containers with identical body text;
only the second carries a parsable `mf_story_key`. -/
def hW9 : HtmlInput :=
  { raw := "<html><body>no markers</body></html>"
    dom := [Node.elem "html" [] [Node.elem "body" [] [
      Node.elem "div" [("data-ft", "x")]
        [Node.elem "p" [] [Node.text dupText]],
      Node.elem "div" [("data-ft", storyKeyJson)]
        [Node.elem "p" [] [Node.text dupText]]]]] }

/-- A single matched container carrying the `mf_story_key`. -/
def hW9b : HtmlInput :=
  { raw := "<html><body>single container</body></html>"
    dom := [Node.elem "html" [] [Node.elem "body" [] [
      Node.elem "div" [("data-ft", storyKeyJson)]
        [Node.elem "p" [] [Node.text dupText]]]]] }

/-- The matched container occurrence of `hW9b`. -/
def eW9b : Occ :=
  ⟨"div", [("data-ft", storyKeyJson)],
   [Node.elem "p" [] [Node.text dupText]],
   [⟨"body", []⟩, ⟨"html", []⟩]⟩

/-- The qualifying conditions of one fallback element. -/
def fallbackOk (e : Occ) : Prop :=
  50 < (jsTrim (occText e)).length ∧ (jsTrim (occText e)).length < 5000 ∧
  jsIncludes (jsToLower (jsTrim (occText e))) "log in" = false ∧
  jsIncludes (jsToLower (jsTrim (occText e))) "sign up" = false ∧
  jsIncludes (jsToLower (jsTrim (occText e))) "create account" = false

/-! ## Theorems -/

/-! ### Auto-loop lemmas -/

/-- Registered adapters preceding the first success all fail: the loop
invokes exactly the registered prefix and then the winner. -/
theorem autoLoop_first_success {α : Type} (failEnv : Envelope α)
    (reg : Registry α) (a : AdapterName) (r : Envelope α)
    (post : List AdapterName) :
    ∀ pre : List AdapterName,
      (∀ b ∈ pre, ∀ o, reg b = some o → isFailure o = true) →
      reg a = some (.returned r) → r.success = true →
      autoLoop failEnv reg (pre ++ a :: post)
        = (r, pre.filter (fun b => (reg b).isSome) ++ [a]) := by
  intro pre
  induction pre with
  | nil =>
    intro _ ha hs
    simp [autoLoop, ha, hs]
  | cons b bs ih =>
    intro hfail ha hs
    have hb := hfail b (by simp)
    have hrest : ∀ c ∈ bs, ∀ o, reg c = some o → isFailure o = true := by
      intro c hc o ho
      exact hfail c (by simp [hc]) o ho
    have ihr := ih hrest ha hs
    cases hregb : reg b with
    | none => simp [autoLoop, hregb, ihr, List.filter]
    | some o =>
      have hof := hb o hregb
      cases o with
      | thrown m => simp [autoLoop, hregb, ihr, List.filter, hregb]
      | returned e =>
        have : e.success = false := by
          simpa [isFailure] using hof
        simp [autoLoop, hregb, this, ihr, List.filter]

/-- When every registered adapter fails, the loop returns the
total-failure envelope after invoking all registered names. -/
theorem autoLoop_all_fail {α : Type} (failEnv : Envelope α)
    (reg : Registry α) :
    ∀ order : List AdapterName,
      (∀ b ∈ order, ∀ o, reg b = some o → isFailure o = true) →
      autoLoop failEnv reg order
        = (failEnv, order.filter (fun b => (reg b).isSome)) := by
  intro order
  induction order with
  | nil => intro _; simp [autoLoop]
  | cons b bs ih =>
    intro hfail
    have hb := hfail b (by simp)
    have hrest : ∀ c ∈ bs, ∀ o, reg c = some o → isFailure o = true := by
      intro c hc o ho
      exact hfail c (by simp [hc]) o ho
    have ihr := ih hrest
    cases hregb : reg b with
    | none => simp [autoLoop, hregb, ihr, List.filter]
    | some o =>
      have hof := hb o hregb
      cases o with
      | thrown m => simp [autoLoop, hregb, ihr, List.filter]
      | returned e =>
        have : e.success = false := by
          simpa [isFailure] using hof
        simp [autoLoop, hregb, this, ihr, List.filter]

/-- Equivalent registries drive the loop to the same envelope and
the same trace: a thrown invocation is handled identically to a
returned failure envelope. -/
theorem autoLoop_congr {α : Type} (failEnv : Envelope α)
    (reg reg' : Registry α)
    (hequiv : ∀ n, outcomeEquiv (reg n) (reg' n)) :
    ∀ order : List AdapterName,
      autoLoop failEnv reg order = autoLoop failEnv reg' order := by
  intro order
  induction order with
  | nil => rfl
  | cons b bs ih =>
    have hb := hequiv b
    cases hregb : reg b with
    | none =>
      cases hregb' : reg' b with
      | none => simp [autoLoop, hregb, hregb', ih]
      | some o' => rw [hregb, hregb'] at hb; exact absurd hb (by simp [outcomeEquiv])
    | some o =>
      cases hregb' : reg' b with
      | none => rw [hregb, hregb'] at hb; exact absurd hb (by simp [outcomeEquiv])
      | some o' =>
        rw [hregb, hregb'] at hb
        rcases hb with ⟨hf, hf'⟩ | heq
        · cases o with
          | thrown m =>
            cases o' with
            | thrown m' => simp [autoLoop, hregb, hregb', ih]
            | returned e' =>
              have : e'.success = false := by simpa [isFailure] using hf'
              simp [autoLoop, hregb, hregb', this, ih]
          | returned e =>
            have he : e.success = false := by simpa [isFailure] using hf
            cases o' with
            | thrown m' => simp [autoLoop, hregb, hregb', he, ih]
            | returned e' =>
              have : e'.success = false := by simpa [isFailure] using hf'
              simp [autoLoop, hregb, hregb', he, this, ih]
        · subst heq
          cases o with
          | thrown m => simp [autoLoop, hregb, hregb', ih]
          | returned e =>
            cases hs : e.success with
            | false => simp [autoLoop, hregb, hregb', hs, ih]
            | true => simp [autoLoop, hregb, hregb', hs]

/-- In auto mode the orchestrator just runs the fallback loop. -/
theorem orchRun_auto {α : Type} (failEnv : Envelope α) (reg : Registry α)
    (order : List AdapterName) (strat : Option StrategyChoice)
    (hauto : strat = none ∨ strat = some .auto) :
    orchRun failEnv reg order strat
      = (.returned (autoLoop failEnv reg order).1,
         (autoLoop failEnv reg order).2) := by
  rcases hauto with h | h <;> subst h <;> simp [orchRun]

/-- C1.  In auto mode (`options.strategy` absent or `'auto'`), for every
scrape or search request the orchestrator invokes the initialized
backends sequentially in priority order; a backend that throws is
treated identically to one returning `success:false` (both advance to
the next backend); the first `success = true` result is returned
immediately and the remaining backends are never invoked; if every
backend fails, the returned envelope has `success:false`, `data` null,
and error `"All adapters failed"` (for search: `"All adapters failed
for search"`), attributed to the `standalone` backend.  The first two
conjuncts state short-circuiting and exhaustion for `scrape`, the
third the throw/failure equivalence; the last three state the same
for `search`. -/
theorem claim_C1_auto_fallback {α : Type} (reg reg' : Registry α)
    (strat : Option StrategyChoice)
    (hauto : strat = none ∨ strat = some .auto) :
    (∀ (pre post : List AdapterName) (a : AdapterName) (r : Envelope α),
        (∀ b ∈ pre, ∀ o, reg b = some o → isFailure o = true) →
        reg a = some (.returned r) → r.success = true →
        StrategyOrchestrator.scrape reg (pre ++ a :: post) strat
          = (.returned r, pre.filter (fun b => (reg b).isSome) ++ [a]))
  ∧ (∀ order : List AdapterName,
        (∀ b ∈ order, ∀ o, reg b = some o → isFailure o = true) →
        StrategyOrchestrator.scrape reg order strat
          = (.returned ⟨false, none, .standalone, some "All adapters failed"⟩,
             order.filter (fun b => (reg b).isSome)))
  ∧ ((∀ n, outcomeEquiv (reg n) (reg' n)) →
        ∀ order : List AdapterName,
          StrategyOrchestrator.scrape reg order strat
            = StrategyOrchestrator.scrape reg' order strat)
  ∧ (∀ (pre post : List AdapterName) (a : AdapterName) (r : Envelope α),
        (∀ b ∈ pre, ∀ o, reg b = some o → isFailure o = true) →
        reg a = some (.returned r) → r.success = true →
        StrategyOrchestrator.search reg (pre ++ a :: post) strat
          = (.returned r, pre.filter (fun b => (reg b).isSome) ++ [a]))
  ∧ (∀ order : List AdapterName,
        (∀ b ∈ order, ∀ o, reg b = some o → isFailure o = true) →
        StrategyOrchestrator.search reg order strat
          = (.returned
              ⟨false, none, .standalone, some "All adapters failed for search"⟩,
             order.filter (fun b => (reg b).isSome)))
  ∧ ((∀ n, outcomeEquiv (reg n) (reg' n)) →
        ∀ order : List AdapterName,
          StrategyOrchestrator.search reg order strat
            = StrategyOrchestrator.search reg' order strat) := by
  refine ⟨?_, ?_, ?_, ?_, ?_, ?_⟩
  · intro pre post a r hfail ha hs
    rw [StrategyOrchestrator.scrape, orchRun_auto _ _ _ _ hauto,
      autoLoop_first_success _ _ _ _ _ _ hfail ha hs]
  · intro order hfail
    rw [StrategyOrchestrator.scrape, orchRun_auto _ _ _ _ hauto,
      autoLoop_all_fail _ _ _ hfail]
    rfl
  · intro hequiv order
    rw [StrategyOrchestrator.scrape, StrategyOrchestrator.scrape,
      orchRun_auto _ _ _ _ hauto, orchRun_auto _ _ _ _ hauto,
      autoLoop_congr _ _ _ hequiv]
  · intro pre post a r hfail ha hs
    rw [StrategyOrchestrator.search, orchRun_auto _ _ _ _ hauto,
      autoLoop_first_success _ _ _ _ _ _ hfail ha hs]
  · intro order hfail
    rw [StrategyOrchestrator.search, orchRun_auto _ _ _ _ hauto,
      autoLoop_all_fail _ _ _ hfail]
    rfl
  · intro hequiv order
    rw [StrategyOrchestrator.search, StrategyOrchestrator.search,
      orchRun_auto _ _ _ _ hauto, orchRun_auto _ _ _ _ hauto,
      autoLoop_congr _ _ _ hequiv]

/-- Witness for C1 at a concrete registry: brightdata throws, then
standalone wins. -/
theorem claim_C1_auto_fallback_witness :
    StrategyOrchestrator.scrape regW [.brightdata, .standalone] none
      = (.returned ⟨true, some 7, .standalone, none⟩,
         [.brightdata, .standalone]) := by
  have h := (claim_C1_auto_fallback regW regW none (Or.inl rfl)).1
      [.brightdata] [] .standalone ⟨true, some 7, .standalone, none⟩
      (by
        intro b hb o ho
        simp only [List.mem_singleton] at hb
        subst hb
        simp only [regW] at ho
        cases ho
        rfl)
      rfl rfl
  simpa [regW] using h

/-- C2 fails as stated: with `strategy = brightdata` while brightdata
is unregistered, the orchestrator does fall back — it invokes the
standalone backend (a backend other than the requested one) and
returns its result. -/
theorem claim_C2_counterexample :
    StrategyOrchestrator.scrape regW2 [.standalone]
        (some (.specific .brightdata))
      = (.returned ⟨true, some 5, .standalone, none⟩, [.standalone])
    ∧ AdapterName.standalone ≠ AdapterName.brightdata := by
  exact ⟨rfl, by decide⟩

/-- C2 (amended).  When `options.strategy` names a specific backend X
that is registered, the orchestrator invokes only X (result and
trace `[X]`, throws propagating); when X is not registered, the call
falls through to the auto fallback loop and behaves exactly as
`strategy = 'auto'`. -/
theorem claim_C2_forced_strategy {α : Type} (reg : Registry α)
    (order : List AdapterName) (x : AdapterName) :
    (∀ o, reg x = some o →
        StrategyOrchestrator.scrape reg order (some (.specific x)) = (o, [x])
      ∧ StrategyOrchestrator.search reg order (some (.specific x)) = (o, [x]))
  ∧ (reg x = none →
        StrategyOrchestrator.scrape reg order (some (.specific x))
          = StrategyOrchestrator.scrape reg order (some .auto)
      ∧ StrategyOrchestrator.search reg order (some (.specific x))
          = StrategyOrchestrator.search reg order (some .auto)) := by
  constructor
  · intro o ho
    exact ⟨by simp [StrategyOrchestrator.scrape, orchRun, ho],
           by simp [StrategyOrchestrator.search, orchRun, ho]⟩
  · intro ho
    exact ⟨by simp [StrategyOrchestrator.scrape, orchRun, ho],
           by simp [StrategyOrchestrator.search, orchRun, ho]⟩

/-- Witness for the amended C2: a registered override invokes only the
requested backend; an unregistered override equals auto mode. -/
theorem claim_C2_forced_strategy_witness :
    StrategyOrchestrator.scrape regW2 [.standalone]
        (some (.specific .standalone))
      = (.returned ⟨true, some 5, .standalone, none⟩, [.standalone])
    ∧ StrategyOrchestrator.scrape regW2 [.standalone]
        (some (.specific .brightdata))
      = StrategyOrchestrator.scrape regW2 [.standalone] (some .auto) :=
  ⟨((claim_C2_forced_strategy regW2 [.standalone] .standalone).1 _ rfl).1,
   ((claim_C2_forced_strategy regW2 [.standalone] .brightdata).2 rfl).1⟩

/-! ### RateLimiter -/

/-- C4 fails on the code: with both the per-second and per-minute
ceilings at `1` and a single request recorded 900 ms ago,
`getWaitTime` returns the per-second wait `100` and never reaches the
per-minute constraint, whereas the maximum of the three
constraint-implied waits is the per-minute wait `59100`.  (State:
one request at `999100`, `lastRequestTime = 999100`, clock
`1000000`.) -/
theorem claim_C4_first_applicable_not_max :
    RateLimiter.getWaitTime ⟨1, 1, [999100], 999100⟩ 1000000 = 100
    ∧ claimMaxWaitTime ⟨1, 1, [999100], 999100⟩ 1000000 = 59100
    ∧ (100 : Int) ≠ 59100 := by
  refine ⟨by decide, by decide, by decide⟩

/-! ### Retry -/

/-- When the first `maxRetries` attempts fail with retryable errors
and attempt `maxRetries` also fails, the loop makes exactly
`maxRetries + 1` attempts and rethrows the last error. -/
theorem withRetryGo_exhaust {α : Type} (f : Nat → Except JsError α)
    (m : Nat) (retr : JsError → Bool) (e : JsError)
    (hlast : f m = .error e) :
    ∀ fuel j, j ≤ m → j + fuel = m + 1 →
      (∀ k, j ≤ k → k < m → ∃ e', f k = .error e' ∧ retr e' = true) →
      withRetryGo f m retr j fuel = (.error e, fuel) := by
  intro fuel
  induction fuel with
  | zero =>
    intro j hj hsum _
    omega
  | succ fu ih =>
    intro j hj hsum hfail
    rcases Nat.lt_or_ge j m with hlt | hge
    · obtain ⟨e', he', hre'⟩ := hfail j le_rfl hlt
      have hrec := ih (j + 1) (by omega) (by omega)
        (fun k hk1 hk2 => hfail k (by omega) hk2)
      simp [withRetryGo, he', hre', Nat.not_le.mpr hlt, hrec]
    · have hjm : j = m := le_antisymm hj hge
      subst hjm
      have hfu : fu = 0 := by omega
      subst hfu
      simp [withRetryGo, hlast]

/-- C5.  With the substring list left at its default, `withRetry`
classifies errors by the fixed case-insensitive substrings (first
conjunct pins the list); a retryable first failure is retried (third
conjunct: a second attempt that succeeds is returned after exactly 2
calls); a non-retryable error is rethrown after the first attempt
with no further attempts (second conjunct); and when all
`maxRetries + 1` attempts fail on retryable errors, the last observed
error is rethrown after exactly `maxRetries + 1` calls (fourth
conjunct). -/
theorem claim_C5_retry_classification {α : Type}
    (f : Nat → Except JsError α) (o : RetryOverrides)
    (ho : o.retryableErrors = none) :
    (mergeRetryOptions o).retryableErrors = some
        ["ECONNRESET", "ETIMEDOUT", "ECONNREFUSED", "ENOTFOUND",
         "EAI_AGAIN", "rate limit", "timeout",
         "429", "500", "502", "503", "504"]
  ∧ (∀ e, f 0 = .error e → isRetryable e (mergeRetryOptions o) = false →
        withRetry f o = (.error e, 1))
  ∧ (∀ e v, f 0 = .error e → isRetryable e (mergeRetryOptions o) = true →
        f 1 = .ok v → 1 ≤ (mergeRetryOptions o).maxRetries →
        withRetry f o = (.ok v, 2))
  ∧ ((∀ k, k < (mergeRetryOptions o).maxRetries →
        ∃ e, f k = .error e ∧ isRetryable e (mergeRetryOptions o) = true) →
      ∀ e, f (mergeRetryOptions o).maxRetries = .error e →
        withRetry f o = (.error e, (mergeRetryOptions o).maxRetries + 1)) := by
  refine ⟨?_, ?_, ?_, ?_⟩
  · simp [mergeRetryOptions, ho, defaultRetryOptions]
  · intro e he hre
    simp [withRetry, withRetryGo, he, hre]
  · intro e v he hre hok hm
    have h1 : ¬ (mergeRetryOptions o).maxRetries ≤ 0 := by omega
    cases hmr : (mergeRetryOptions o).maxRetries with
    | zero => omega
    | succ m =>
      simp [withRetry, hmr, withRetryGo, he, hre, hok]
  · intro hfail e hlast
    have := withRetryGo_exhaust f (mergeRetryOptions o).maxRetries
      (fun e' => isRetryable e' (mergeRetryOptions o)) e hlast
      ((mergeRetryOptions o).maxRetries + 1) 0 (Nat.zero_le _) (by omega)
      (fun k _ hk => hfail k hk)
    simpa [withRetry] using this

/-- Witness for C5: with default options, an always-`ETIMEDOUT`
operation makes 4 attempts and rethrows the timeout error, while an
`InvalidInput` failure propagates after a single attempt. -/
theorem claim_C5_retry_classification_witness :
    withRetry opAlwaysTimeout noOverrides = (.error errTimeout, 4)
    ∧ withRetry opInvalid noOverrides = (.error errInvalid, 1) := by
  constructor
  · have h := (claim_C5_retry_classification opAlwaysTimeout noOverrides
      rfl).2.2.2
    exact h (fun k _ => ⟨errTimeout, rfl, by decide⟩) errTimeout rfl
  · have h := (claim_C5_retry_classification opInvalid noOverrides
      rfl).2.1
    exact h errInvalid rfl (by decide)

/-! ### Cache -/

/-- Setting a key finds exactly the written entry back. -/
theorem mapGet_mapSet_self {β : Type} (k : String) (v : β) :
    ∀ m : List (String × β), mapGet (mapSet m k v) k = some v := by
  intro m
  induction m with
  | nil => simp [mapGet, mapSet]
  | cons p rest ih =>
    rcases p with ⟨k', v'⟩
    by_cases h : k' == k
    · simp [mapGet, mapSet, h]
    · simp [mapGet, mapSet, h, ih]

/-- `mapSet` grows the map by at most one binding. -/
theorem mapSet_length_le {β : Type} (k : String) (v : β) :
    ∀ m : List (String × β), (mapSet m k v).length ≤ m.length + 1 := by
  intro m
  induction m with
  | nil => simp [mapSet]
  | cons p rest ih =>
    rcases p with ⟨k', v'⟩
    by_cases h : k' == k
    · simp [mapSet, h]
    · simp [mapSet, h]
      omega

/-- C6 fails as stated at TTL `t = 0`: `ttlMs || default` is a falsy
test, so the entry is stored with the 5-minute default expiry and is
still present 1 ms after the set, although more than `t = 0` ms have
elapsed. -/
theorem claim_C6_counterexample :
    ((Cache.set cacheW "k" 42 (some 0) 0).get "k" 1).1 = some 42
    ∧ ((1 : Int) - 0 > 0)
    ∧ (some 42 : Option Nat) ≠ none := by
  refine ⟨by decide, by decide, by decide⟩

/-- C6 (amended).  For every strictly positive TTL `t`, on a cache
below capacity, `set(k, v, t)` followed by `get(k)` at the same
instant returns `v`; and once more than `t` ms have elapsed since the
set, `get(k)` returns absent even though `cleanup()` never ran — the
expiry test inside `get` evicts lazily. -/
theorem claim_C6_set_get_ttl {α : Type} (c : Cache α) (k : String) (v : α)
    (t : Int) (ht : 0 < t) (hcap : c.entries.length < c.maxEntries)
    (now now' : Int) :
    ((Cache.set c k v (some t) now).get k now).1 = some v
    ∧ (now' - now > t →
        ((Cache.set c k v (some t) now).get k now').1 = none) := by
  have htne : ¬ t = 0 := by omega
  have hsize : ¬ 10 * (mapSet c.entries k
      (⟨v, now + t, now⟩ : CacheEntry α)).length > 12 * c.maxEntries := by
    have h1 := mapSet_length_le k (⟨v, now + t, now⟩ : CacheEntry α) c.entries
    omega
  have hset : Cache.set c k v (some t) now
      = { c with entries := mapSet c.entries k ⟨v, now + t, now⟩ } := by
    simp [Cache.set, htne, hsize]
  constructor
  · rw [hset]
    have hnot : ¬ (now + t < now) := by omega
    simp [Cache.get, mapGet_mapSet_self, hnot]
  · intro hlate
    rw [hset]
    have hyes : now + t < now' := by omega
    simp [Cache.get, mapGet_mapSet_self, hyes]

/-- Witness for C6: on the empty 1000-entry cache, `set` with TTL 100
at time 0 is readable at time 0 and absent at time 101. -/
theorem claim_C6_set_get_ttl_witness :
    ((Cache.set cacheW "k" 42 (some 100) 0).get "k" 0).1 = some 42
    ∧ ((Cache.set cacheW "k" 42 (some 100) 0).get "k" 101).1 = none := by
  have h := claim_C6_set_get_ttl cacheW "k" 42 100 (by decide) (by decide)
    0 101
  exact ⟨h.1, h.2 (by decide)⟩

/-! ### Parser helper lemmas -/

/-- Members of a prefix are members. -/
theorem memOfMemTake {α : Type} (x : α) :
    ∀ (l : List α) (n : Nat), x ∈ l.take n → x ∈ l := by
  intro l
  induction l with
  | nil => intro n h; simp [List.take] at h
  | cons a t ih =>
    intro n h
    cases n with
    | zero => simp [List.take] at h
    | succ m =>
      simp only [List.take, List.mem_cons] at h ⊢
      rcases h with h | h
      · exact Or.inl h
      · exact Or.inr (ih m h)

/-- A positive-length prefix of a non-empty list is non-empty. -/
theorem takeNeNil {α : Type} (l : List α) (n : Nat) (hl : l ≠ [])
    (hn : 0 < n) : l.take n ≠ [] := by
  cases l with
  | nil => exact absurd rfl hl
  | cons a t =>
    cases n with
    | zero => omega
    | succ m => simp [List.take]

/-- An element sitting below the cap stays in the prefix. -/
theorem memTakeAppend {α : Type} (x : α) (b : List α) :
    ∀ (a : List α) (n : Nat), a.length < n → x ∈ (a ++ x :: b).take n := by
  intro a
  induction a with
  | nil =>
    intro n hn
    cases n with
    | zero => omega
    | succ m => simp [List.take]
  | cons c t ih =>
    intro n hn
    cases n with
    | zero => omega
    | succ m =>
      simp only [List.cons_append, List.take, List.mem_cons]
      exact Or.inr (ih m (by simpa using hn))

/-- `any` is false when the predicate fails everywhere. -/
theorem anyFalseOfAll {α : Type} (p : α → Bool) :
    ∀ l : List α, (∀ x ∈ l, p x = false) → l.any p = false := by
  intro l
  induction l with
  | nil => intro _; rfl
  | cons a t ih =>
    intro h
    simp only [List.any_cons, h a (by simp), Bool.false_or]
    exact ih fun x hx => h x (by simp [hx])

/-- A string of positive length is not `isEmpty`. -/
theorem isEmptyFalseOfLen (s : String) (h : 0 < s.length) :
    s.isEmpty = false := by
  by_cases hb : s.isEmpty = true
  · have hs := (String.isEmpty_iff s).mp hb
    subst hs
    simp at h
  · simpa using hb

/-- A non-`""` string is not `isEmpty`. -/
theorem isEmptyFalseOfNe (s : String) (h : ¬ s = "") :
    s.isEmpty = false := by
  by_cases hb : s.isEmpty = true
  · exact absurd ((String.isEmpty_iff s).mp hb) h
  · simpa using hb

/-- When no post selector matches, the structural pass keeps
nothing. -/
theorem tryPostSelectorsNil (ids : Nat → String) (sels : SelectorSet)
    (occs : List Occ) :
    ∀ sl : List Sel, (∀ s ∈ sl, (selectAll [s] occs).isEmpty = true) →
      tryPostSelectors ids sels occs sl = [] := by
  intro sl
  induction sl with
  | nil => intro _; rfl
  | cons s rest ih =>
    intro h
    have hs := h s (by simp)
    simp only [tryPostSelectors, hs, if_true]
    exact ih fun s' hs' => h s' (by simp [hs'])

/-- Every fallback-produced post has author `"Unknown"`. -/
theorem fallbackAuthorUnknown :
    ∀ (l : List Occ) (idx : Nat) (p : FacebookPost),
      p ∈ extractFallbackGo idx l → p.author = "Unknown" := by
  intro l
  induction l with
  | nil => intro idx p h; simp [extractFallbackGo] at h
  | cons e rest ih =>
    intro idx p h
    simp only [extractFallbackGo] at h
    split at h
    · split at h
      · simp only [List.mem_cons] at h
        rcases h with h | h
        · rw [h]
        · exact ih _ _ h
      · exact ih _ _ h
    · exact ih _ _ h

/-- A qualifying element makes the fallback pass non-empty. -/
theorem fallbackNeNil :
    ∀ (l : List Occ) (idx : Nat), (∃ e ∈ l, fallbackOk e) →
      extractFallbackGo idx l ≠ [] := by
  intro l
  induction l with
  | nil => intro idx h; simp at h
  | cons e' rest ih =>
    intro idx h
    simp only [extractFallbackGo]
    split
    · split
      · simp
      · rename_i hlen hphr
        refine ih _ ?_
        rcases h with ⟨e, he, hok⟩
        simp only [List.mem_cons] at he
        rcases he with he | he
        · subst he
          exact absurd (by
            simp only [Bool.and_eq_true, Bool.not_eq_true] at hphr ⊢
            simp [hok.2.2.1, hok.2.2.2.1, hok.2.2.2.2]) hphr
        · exact ⟨e, he, hok⟩
    · rename_i hlen
      refine ih _ ?_
      rcases h with ⟨e, he, hok⟩
      simp only [List.mem_cons] at he
      rcases he with he | he
      · subst he
        exact absurd (by
          simp only [Bool.and_eq_true, decide_eq_true_eq]
          exact ⟨hok.1, hok.2.1⟩) hlen
      · exact ⟨e, he, hok⟩

/-- `processGo` over an appended element list. -/
theorem processGoAppend (ids : Nat → String) (sels : SelectorSet)
    (l2 : List Occ) :
    ∀ (l1 : List Occ) (idx : Nat) (acc : List FacebookPost),
      processGo ids sels idx acc (l1 ++ l2)
        = processGo ids sels (idx + l1.length)
            (processGo ids sels idx acc l1) l2 := by
  intro l1
  induction l1 with
  | nil => intro idx acc; simp [processGo]
  | cons e t ih =>
    intro idx acc
    simp only [List.cons_append, processGo]
    rw [show t.append l2 = t ++ l2 from rfl, ih]
    have harith : idx + (e :: t).length = idx + 1 + t.length := by
      simp
      omega
    rw [harith]

/-- `processGo` only ever appends to its accumulator. -/
theorem processGoExtends (ids : Nat → String) (sels : SelectorSet) :
    ∀ (l : List Occ) (idx : Nat) (acc : List FacebookPost),
      ∃ t, processGo ids sels idx acc l = acc ++ t := by
  intro l
  induction l with
  | nil => intro idx acc; exact ⟨[], by simp [processGo]⟩
  | cons e rest ih =>
    intro idx acc
    simp only [processGo]
    split
    · rcases ih (idx + 1) (acc ++
        [parsePostElement (ids idx) e sels]) with ⟨t, ht⟩
      exact ⟨parsePostElement (ids idx) e sels :: t, by
        rw [ht]
        simp⟩
    · exact ih (idx + 1) acc

/-- A non-empty list is not `isEmpty`. -/
theorem isEmptyFalseOfNeNil {α : Type} (l : List α) (h : l ≠ []) :
    l.isEmpty = false := by
  cases l with
  | nil => exact absurd rfl h
  | cons a t => rfl

/-! ### C3: parser fallback degradation -/

/-- C3.  For every markup input in which no structural post selector
of the detected dialect matches, but which contains at least one
generic text-bearing element (`p`, `div[dir="auto"]`, `span[lang]`)
whose trimmed text length lies strictly between 50 and 5000 and
contains none of the phrases `log in` / `sign up` / `create account`,
`parsePosts` returns a non-empty list all of whose (here:
fallback-produced) posts have author `"Unknown"`.  The embedding is a
total function, so no exception is thrown. -/
theorem claim_C3_fallback_degradation (h : HtmlInput) (ids : Nat → String)
    (hsel : ∀ s ∈ (selectorsFor (detectFacebookVersion h)).posts,
      (selectAll [s] (allOccs h)).isEmpty = true)
    (hex : ∃ e ∈ selectAll fallbackSels (allOccs h), fallbackOk e) :
    FacebookParser.parsePosts h ids ≠ []
    ∧ ∀ p ∈ FacebookParser.parsePosts h ids, p.author = "Unknown" := by
  have hstruct := tryPostSelectorsNil ids
    (selectorsFor (detectFacebookVersion h)) (allOccs h) _ hsel
  have hps : FacebookParser.parsePosts h ids
      = (extractFallbackGo 0 (selectAll fallbackSels (allOccs h))).take 50 := by
    simp [FacebookParser.parsePosts, hstruct]
  constructor
  · rw [hps]
    exact takeNeNil _ 50 (fallbackNeNil _ 0 hex) (by omega)
  · intro p hp
    rw [hps] at hp
    exact fallbackAuthorUnknown _ 0 p (memOfMemTake p _ 50 hp)

/-- Witness for C3: markup whose only text-bearing element is one
88-character `p` yields exactly the fallback posts. -/
theorem claim_C3_fallback_degradation_witness :
    FacebookParser.parsePosts hW3 synthIds ≠ []
    ∧ ∀ p ∈ FacebookParser.parsePosts hW3 synthIds,
        p.author = "Unknown" := by
  refine claim_C3_fallback_degradation hW3 synthIds (by decide) ?_
  refine ⟨pOccW, ?_, ?_⟩
  · rw [show selectAll fallbackSels (allOccs hW3) = [pOccW] from rfl]
    simp
  · refine ⟨by decide, by decide, by decide, by decide, by decide⟩

/-! ### C9: per-post metadata id -/

/-- The id extraction: a matched container whose `data-ft` parses to
JSON with a truthy string `mf_story_key` takes that key as its id. -/
theorem parsePostElementStoryKey (fid : String) (e : Occ)
    (sels : SelectorSet) (dft : String) (ft : Json) (sk : String)
    (hft : occAttr e "data-ft" = some dft)
    (hjson : jsonParse dft = some ft)
    (hkey : jsonProp ft "mf_story_key" = some (.str sk))
    (hsk : ¬ sk = "") :
    (parsePostElement fid e sels).id = sk := by
  have htr : jsTruthy (.str sk) = true := by
    simp [jsTruthy, isEmptyFalseOfNe sk hsk]
  simp [parsePostElement, hft, hjson, hkey, htr, jsToString]

/-- When the first selector matches and its processing keeps a post,
the structural pass returns that processing. -/
theorem tryPostSelectorsFirstKeeps (ids : Nat → String)
    (sels : SelectorSet) (occs : List Occ) (s : Sel) (rest : List Sel)
    (elements : List Occ) (hel : selectAll [s] occs = elements)
    (hne : elements ≠ [])
    (hkept : processGo ids sels 0 [] elements ≠ []) :
    tryPostSelectors ids sels occs (s :: rest)
      = processGo ids sels 0 [] elements := by
  simp only [tryPostSelectors, hel, isEmptyFalseOfNeNil _ hne,
    isEmptyFalseOfNeNil _ hkept]
  simp

/-- C9 fails as stated: in `hW9` both containers are matched by
`div[data-ft]` and extract identical body text; the second satisfies
every condition of the claim (valid `mf_story_key: "555"` JSON,
length filter passed), yet content de-duplication drops its post, and
no returned post has id `"555"`. -/
theorem claim_C9_counterexample :
    detectFacebookVersion hW9 = .mbasic
    ∧ (selectAll [Sel.simple ⟨some "div", [.has "data-ft"]⟩]
        (allOccs hW9)).map (fun e => occAttr e "data-ft")
      = [some "x", some storyKeyJson]
    ∧ jsonParse storyKeyJson = some (.obj [("mf_story_key", .str "555")])
    ∧ (selectAll [Sel.simple ⟨some "div", [.has "data-ft"]⟩]
        (allOccs hW9)).map (fun e =>
          decide (10 < (parsePostElement (synthIds 1) e
            mbasicSelectors).content.length))
      = [true, true]
    ∧ (FacebookParser.parsePosts hW9 synthIds).map (fun p => p.id)
      = ["post_synth_0"]
    ∧ ¬ ("post_synth_0" = "555") := by
  refine ⟨rfl, rfl, by rfl, by rfl, by rfl, by decide⟩

/-- C9 (amended).  In mbasic-dialect markup, when a container matched
by the first post selector `div[data-ft]` carries a `data-ft`
attribute whose JSON holds `mf_story_key: "555"`, its extracted body
text passes the minimum-length filter, no candidate kept before it
yields the same content or the id `"555"`, and fewer than 50 posts
precede it, then its parsed id is `"555"` rather than a synthesized
one, and `parsePosts` returns a Post with id `"555"`. -/
theorem claim_C9_story_key_id (h : HtmlInput) (ids : Nat → String)
    (hv : detectFacebookVersion h = .mbasic)
    (pre suf : List Occ) (e : Occ) (dft : String) (ft : Json)
    (hsplit : selectAll [Sel.simple ⟨some "div", [.has "data-ft"]⟩]
        (allOccs h) = pre ++ e :: suf)
    (hft : occAttr e "data-ft" = some dft)
    (hjson : jsonParse dft = some ft)
    (hkey : jsonProp ft "mf_story_key" = some (.str "555"))
    (hlen : 10 <
      (parsePostElement (ids pre.length) e mbasicSelectors).content.length)
    (hnodup : ∀ p ∈ processGo ids mbasicSelectors 0 [] pre,
      ¬ p.content
          = (parsePostElement (ids pre.length) e mbasicSelectors).content
      ∧ ¬ p.id = "555")
    (hcap : (processGo ids mbasicSelectors 0 [] pre).length < 50) :
    (parsePostElement (ids pre.length) e mbasicSelectors).id = "555"
    ∧ ∃ p ∈ FacebookParser.parsePosts h ids, p.id = "555" := by
  have hid : (parsePostElement (ids pre.length) e mbasicSelectors).id
      = "555" :=
    parsePostElementStoryKey _ _ _ _ _ _ hft hjson hkey (by decide)
  refine ⟨hid, ?_⟩
  -- the processing of the matched elements keeps e's post
  have hkeep :
      processGo ids mbasicSelectors 0 [] (pre ++ e :: suf)
        = processGo ids mbasicSelectors (pre.length + 1)
            ((processGo ids mbasicSelectors 0 [] pre) ++
              [parsePostElement (ids pre.length) e mbasicSelectors])
            suf := by
    rw [processGoAppend]
    have hcontent : (parsePostElement (ids pre.length) e
        mbasicSelectors).content.isEmpty = false :=
      isEmptyFalseOfLen _ (by omega)
    have hdup : ((processGo ids mbasicSelectors 0 [] pre).any fun p =>
        p.content
            == (parsePostElement (ids pre.length) e mbasicSelectors).content
          || (p.id == (parsePostElement (ids pre.length) e
                mbasicSelectors).id
            && !((parsePostElement (ids pre.length) e
                mbasicSelectors).id == "unknown"))) = false := by
      refine anyFalseOfAll _ _ ?_
      intro p hp
      have h1 := (hnodup p hp).1
      have h2 := (hnodup p hp).2
      rw [hid]
      simp [h1, h2]
    simp only [processGo, Nat.zero_add, hcontent, hdup, hlen]
    simp
  -- only appended afterwards
  obtain ⟨t, ht⟩ := processGoExtends ids mbasicSelectors suf
    (pre.length + 1)
    ((processGo ids mbasicSelectors 0 [] pre) ++
      [parsePostElement (ids pre.length) e mbasicSelectors])
  have hposts : processGo ids mbasicSelectors 0 [] (pre ++ e :: suf)
      = (processGo ids mbasicSelectors 0 [] pre) ++
          (parsePostElement (ids pre.length) e mbasicSelectors) :: t := by
    rw [hkeep, ht]
    simp
  -- the structural pass returns exactly these posts
  have hne1 : pre ++ e :: suf ≠ [] := by
    cases pre <;> simp
  have hne2 : processGo ids mbasicSelectors 0 [] (pre ++ e :: suf) ≠ [] := by
    rw [hposts]
    cases processGo ids mbasicSelectors 0 [] pre <;> simp
  have htry : tryPostSelectors ids mbasicSelectors (allOccs h)
      mbasicSelectors.posts
      = processGo ids mbasicSelectors 0 [] (pre ++ e :: suf) := by
    rw [show mbasicSelectors.posts
      = (Sel.simple ⟨some "div", [.has "data-ft"]⟩) ::
        mbasicSelectors.posts.tail from rfl]
    exact tryPostSelectorsFirstKeeps ids mbasicSelectors (allOccs h) _ _ _
      hsplit hne1 hne2
  have hparse : FacebookParser.parsePosts h ids
      = (processGo ids mbasicSelectors 0 [] (pre ++ e :: suf)).take 50 := by
    simp only [FacebookParser.parsePosts, hv, selectorsFor, htry,
      isEmptyFalseOfNeNil _ hne2]
    simp
  refine ⟨parsePostElement (ids pre.length) e mbasicSelectors, ?_, hid⟩
  rw [hparse, hposts]
  exact memTakeAppend _ t _ 50 hcap

/-- Witness for the amended C9: a single matched container with the
`mf_story_key: "555"` attribute yields a Post with id `"555"`. -/
theorem claim_C9_story_key_id_witness :
    (parsePostElement (synthIds 0) eW9b mbasicSelectors).id = "555"
    ∧ ∃ p ∈ FacebookParser.parsePosts hW9b synthIds, p.id = "555" := by
  have h := claim_C9_story_key_id hW9b synthIds rfl [] [] eW9b
    storyKeyJson (.obj [("mf_story_key", .str "555")]) rfl rfl (by rfl)
    (by rfl) (by decide)
    (by intro p hp; simp [processGo] at hp)
    (by simp [processGo])
  exact h

/-! ### buildFacebookUrl -/

/-- C7 fails on the code for `www` URLs: the second chained
`replace('facebook.com', 'mbasic.facebook.com')` re-matches inside
the output of the first, so a `www.facebook.com` URL is rewritten to
host `mbasic.mbasic.facebook.com`, not `mbasic.facebook.com`
(the third conjunct confirms the already-`mbasic.` case is returned
unchanged, per the guard). -/
theorem claim_C7_mbasic_rewrite_bug :
    StandaloneAdapter.buildFacebookUrl true
        "https://www.facebook.com/somepage"
      = "https://mbasic.mbasic.facebook.com/somepage"
    ∧ ("https://mbasic.mbasic.facebook.com/somepage" : String)
        ≠ "https://mbasic.facebook.com/somepage"
    ∧ StandaloneAdapter.buildFacebookUrl true
        "https://mbasic.facebook.com/page"
      = "https://mbasic.facebook.com/page" := by
  refine ⟨by decide, by decide, by decide⟩

/-! ### PlaywrightMCPAdapter -/

/-- C8.  Under the enabled flag, `scrapeUrl` and `search` perform no
fetch and return `success:false`, `data` null, error
`PLAYWRIGHT_MCP_DELEGATION_REQUIRED`, with metadata carrying the
serialized instruction sequence; the sequence consists of navigate,
wait, dismiss (Escape key press), scroll (evaluate), wait, and
snapshot, in that order (last two conjuncts pin the tools and
params). -/
theorem claim_C8_delegation (url query : String) :
    PlaywrightMCPAdapter.scrapeUrl true url
      = { success := false, data := none, adapter_used := .playwrightMcp,
          error := some "PLAYWRIGHT_MCP_DELEGATION_REQUIRED",
          instructions := some (jsonStringify (.arr
            ((PlaywrightMCPAdapter.generateInstructions url "scrape").map
              instrToJson))) }
  ∧ PlaywrightMCPAdapter.search true query none
      = { success := false, data := none, adapter_used := .playwrightMcp,
          error := some "PLAYWRIGHT_MCP_DELEGATION_REQUIRED",
          instructions := some (jsonStringify (.arr
            ((PlaywrightMCPAdapter.generateInstructions
                ("https://www.facebook.com/search/posts?q=" ++
                  encodeURIComponent query) "search").map instrToJson))) }
  ∧ (PlaywrightMCPAdapter.generateInstructions url "scrape").map (·.tool)
      = ["playwright_browser_navigate", "playwright_browser_wait_for",
         "playwright_browser_press_key", "playwright_browser_evaluate",
         "playwright_browser_wait_for", "playwright_browser_snapshot"]
  ∧ (PlaywrightMCPAdapter.generateInstructions url "scrape").map (·.params)
      = [[("url", .str url)], [("time", .num "3")],
         [("key", .str "Escape")],
         [("function", .str "() => \x7b window.scrollBy(0, 500); \x7d")],
         [("time", .num "2")], []] := by
  exact ⟨rfl, rfl, rfl, rfl⟩

/-! ### Search truncation -/

/-- C10.  For every successful standalone or brightdata search with
effective limit `L` (`options?.limit || 10`): the returned `items`
list has length at most `L`, `total_count` equals the number of
parsed items before truncation, and `has_more` holds exactly when
that pre-truncation count strictly exceeds `L`. -/
theorem claim_C10_search_truncation {α : Type} (items : List α)
    (searchType : String) (limit : Option Nat) :
    ((StandaloneAdapter.searchData items searchType limit).items.length
        ≤ effLimit limit
      ∧ (StandaloneAdapter.searchData items searchType limit).total_count
        = items.length
      ∧ ((StandaloneAdapter.searchData items searchType limit).has_more
          = true ↔ items.length > effLimit limit))
  ∧ ((BrightDataAdapter.searchData items searchType limit).items.length
        ≤ effLimit limit
      ∧ (BrightDataAdapter.searchData items searchType limit).total_count
        = items.length
      ∧ ((BrightDataAdapter.searchData items searchType limit).has_more
          = true ↔ items.length > effLimit limit)) := by
  refine ⟨⟨?_, rfl, ?_⟩, ⟨?_, rfl, ?_⟩⟩
  · simp [StandaloneAdapter.searchData]
  · simp [StandaloneAdapter.searchData]
  · simp [BrightDataAdapter.searchData]
  · simp [BrightDataAdapter.searchData]

end FBS
